import Mathlib

/-!
# Music catalog: integrity maintenance and playback navigation

A shallow embedding of `ConsoleApplication16.cpp`.

Objects live on the heap and are referred to by pointers.  A pointer is a
natural number (its address); a nullable pointer is an `Option Nat` with
`none` for `nullptr`.  Each class has its own heap, a function from addresses
to `Option` of the object record: `none` means that no live object is at that
address (never allocated, or released by `delete`).

Member functions that touch only the fields of `this` are functions on the
record.  Functions that dereference other objects take the whole program
state and return an `Option`: the outer `none` stands for undefined behaviour
(dereferencing or deleting a pointer that is not live, indexing a vector out
of range).  The address returned by `new` is a parameter of the operation;
the allocator's contract (the address is not live) is a hypothesis of the
theorems that need it.  The value of `rand()` is a parameter as well.
-/

namespace MusicPlayer

/-! ## Data model -/

/-- Playback modes (`enum class PlaybackMode`). -/
inductive PlaybackMode where
  | SEQUENTIAL
  | RANDOM
  | REPEAT
  deriving DecidableEq, Repr

/-- Record of `class Song`; `artist` is the `Artist*` back-reference. -/
structure Song where
  title : String
  artist : Nat
  releaseYear : Int
  genre : String
  deriving DecidableEq, Repr

/-- Record of `class Artist`; `songs` is a `vector<Song*>`, `albums` a `vector<Playlist*>`. -/
structure Artist where
  name : String
  songs : List Nat := []
  albums : List Nat := []
  deriving DecidableEq, Repr

/-- Record of `class Playlist`; `songs` is a `vector<Song*>`, `creator` a `User*`. -/
structure Playlist where
  name : String
  songs : List Nat := []
  creator : Nat
  isPublic : Bool := true
  deriving DecidableEq, Repr

/-- Record of `class User` (and of its subclass `Admin`, which adds no field). -/
structure User where
  username : String
  password : String
  favoriteSongs : List Nat := []
  favoritePlaylists : List Nat := []
  personalPlaylists : List Nat := []
  currentPlaylist : Option Nat := none
  currentSong : Option Nat := none
  playbackMode : PlaybackMode := PlaybackMode.SEQUENTIAL
  isLooping : Bool := false
  deriving DecidableEq, Repr

/-- Program state: the four heaps and the global collections
`allSongs`, `allPlaylists`, `allArtists`, `allUsers`, `admin`. -/
structure State where
  songAt : Nat → Option Song
  artistAt : Nat → Option Artist
  playlistAt : Nat → Option Playlist
  userAt : Nat → Option User
  allSongs : List Nat := []
  allPlaylists : List Nat := []
  allArtists : List Nat := []
  allUsers : List Nat := []
  admin : Option Nat := none

/-! ## Heap and vector primitives -/

/-- Heap write: the heap `h` with the cell at address `p` replaced by `v`
(`some obj` stores an object, `none` releases the cell). -/
def setAt {α : Type} (h : Nat → Option α) (p : Nat) (v : Option α) : Nat → Option α :=
  fun q => if q = p then v else h q

/-- The call `std::find(v.begin(), v.end(), p)` on a vector of pointers, as the
position of the first element equal to `p`; the vector's length is `v.end()`.
The vectors hold addresses of objects, never `nullptr` (every element comes
from `new` or from another such vector), so a null `p` is found nowhere. -/
def find : List Nat → Option Nat → Nat
  | [], _ => 0
  | x :: xs, p => if p = some x then 0 else find xs p + 1

/-- The idiom `v.erase(std::remove(v.begin(), v.end(), p), v.end())`:
every occurrence of `p` is removed, the rest keeps its order. -/
def eraseAll (v : List Nat) (p : Nat) : List Nat :=
  v.filter (fun x => x != p)

/-! ## Member functions on the records -/

/-- Source: `Artist::addSong`. -/
def Artist.addSong (self : Artist) (song : Nat) : Artist :=
  if find self.songs (some song) = self.songs.length then
    { self with songs := self.songs ++ [song] }
  else self

/-- Source: `Artist::addAlbum`. -/
def Artist.addAlbum (self : Artist) (album : Nat) : Artist :=
  if find self.albums (some album) = self.albums.length then
    { self with albums := self.albums ++ [album] }
  else self

/-- Source: `Playlist::addSong`. -/
def Playlist.addSong (self : Playlist) (song : Nat) : Playlist :=
  if find self.songs (some song) = self.songs.length then
    { self with songs := self.songs ++ [song] }
  else self

/-- Source: `Playlist::removeSong`. -/
def Playlist.removeSong (self : Playlist) (song : Nat) : Playlist :=
  { self with songs := eraseAll self.songs song }

/-- Source: `User::setCurrentSong`. -/
def User.setCurrentSong (self : User) (song : Option Nat) : User :=
  { self with currentSong := song }

/-- Source: `User::addFavoriteSong`. -/
def User.addFavoriteSong (self : User) (song : Nat) : User :=
  if find self.favoriteSongs (some song) = self.favoriteSongs.length then
    { self with favoriteSongs := self.favoriteSongs ++ [song] }
  else self

/-- Source: `User::removeFavoriteSong`. -/
def User.removeFavoriteSong (self : User) (song : Nat) : User :=
  { self with favoriteSongs := eraseAll self.favoriteSongs song }

/-- Source: `User::addFavoritePlaylist`. -/
def User.addFavoritePlaylist (self : User) (playlist : Nat) : User :=
  if find self.favoritePlaylists (some playlist) = self.favoritePlaylists.length then
    { self with favoritePlaylists := self.favoritePlaylists ++ [playlist] }
  else self

/-- Source: `User::removeFavoritePlaylist`. -/
def User.removeFavoritePlaylist (self : User) (playlist : Nat) : User :=
  { self with favoritePlaylists := eraseAll self.favoritePlaylists playlist }

/-- Source: `User::setPlaybackMode`. -/
def User.setPlaybackMode (self : User) (mode : PlaybackMode) : User :=
  { self with playbackMode := mode }

/-- Source: `User::toggleLoop`. -/
def User.toggleLoop (self : User) : User :=
  { self with isLooping := !self.isLooping }

/-! ## Playback navigation -/

/-- Source: `User::setCurrentPlaylist`.  The argument is dereferenced when it
is not null, so a pointer that is not live is undefined behaviour. -/
def User.setCurrentPlaylist (st : State) (self : User) (playlist : Option Nat) : Option User :=
  match playlist with
  | none => some { self with currentPlaylist := none, currentSong := none }
  | some p =>
    match st.playlistAt p with
    | none => none
    | some pl =>
      if pl.songs ≠ [] then
        match pl.songs[0]? with
        | none => none
        | some s => some { self with currentPlaylist := some p, currentSong := some s }
      else
        some { self with currentPlaylist := some p, currentSong := none }

/-- Source: `User::getNextSong`.  The result `some none` is `nullptr`,
`some (some s)` is the song `s`; `rand` is the value of `rand()`. -/
def User.getNextSong (st : State) (self : User) (rand : Nat) : Option (Option Nat) :=
  match self.currentPlaylist with
  | none => some none
  | some p =>
    match st.playlistAt p with
    | none => none
    | some pl =>
      if pl.songs = [] then some none
      else
        let songs := pl.songs
        let it := find songs self.currentSong
        if it = songs.length then some none
        else
          match self.playbackMode with
          | PlaybackMode.SEQUENTIAL =>
            if it + 1 ≠ songs.length then (songs[it + 1]?).map some
            else if self.isLooping then (songs[0]?).map some
            else some none
          | PlaybackMode.RANDOM => (songs[rand % songs.length]?).map some
          | PlaybackMode.REPEAT => some self.currentSong

/-- Source: `User::getPreviousSong`. -/
def User.getPreviousSong (st : State) (self : User) : Option (Option Nat) :=
  match self.currentPlaylist with
  | none => some none
  | some p =>
    match st.playlistAt p with
    | none => none
    | some pl =>
      if pl.songs = [] then some none
      else
        let songs := pl.songs
        let it := find songs self.currentSong
        if it = songs.length then some none
        else if self.playbackMode = PlaybackMode.SEQUENTIAL then
          if it ≠ 0 then (songs[it - 1]?).map some
          else if self.isLooping then (songs.getLast?).map some
          else some self.currentSong
        else some self.currentSong

/-! ## Catalog operations -/

/-- Source: `User::createPlaylist`, called on the user at address `self`;
`fresh` is the address returned by `new Playlist`.  The playlist goes on the
user's own list only. -/
def User.createPlaylist (st : State) (self : Nat) (fresh : Nat) (name : String)
    (isPublic : Bool) : Option State :=
  match st.userAt self with
  | none => none
  | some u =>
    some { st with
      playlistAt := setAt st.playlistAt fresh
        (some { name := name, songs := [], creator := self, isPublic := isPublic })
      userAt := setAt st.userAt self
        (some { u with personalPlaylists := u.personalPlaylists ++ [fresh] }) }

/-- Source: `Admin::addSong`; `fresh` is the address returned by `new Song`. -/
def Admin.addSong (st : State) (fresh : Nat) (title : String) (artist : Nat) (year : Int)
    (genre : String) : Option State :=
  let song : Song := { title := title, artist := artist, releaseYear := year, genre := genre }
  let st1 : State := { st with
    songAt := setAt st.songAt fresh (some song)
    allSongs := st.allSongs ++ [fresh] }
  match st1.artistAt artist with
  | none => none
  | some ar =>
    some { st1 with artistAt := setAt st1.artistAt artist (some (ar.addSong fresh)) }

/-- The loop `for (auto& playlist : allPlaylists) playlist->removeSong(song);`
over the playlist heap. -/
def removeFromPlaylists (song : Nat) :
    List Nat → (Nat → Option Playlist) → Option (Nat → Option Playlist)
  | [], h => some h
  | p :: ps, h =>
    match h p with
    | none => none
    | some pl => removeFromPlaylists song ps (setAt h p (some (pl.removeSong song)))

/-- The loop `for (auto& user : allUsers) user->removeFavoriteSong(song);`
over the user heap. -/
def removeFromFavorites (song : Nat) :
    List Nat → (Nat → Option User) → Option (Nat → Option User)
  | [], h => some h
  | u :: us, h =>
    match h u with
    | none => none
    | some usr => removeFromFavorites song us (setAt h u (some (usr.removeFavoriteSong song)))

/-- Source: `Admin::removeSong`. -/
def Admin.removeSong (st : State) (song : Nat) : Option State :=
  -- Remove from global list
  let allSongs1 := eraseAll st.allSongs song
  -- Remove from artist's songs
  match st.songAt song with
  | none => none
  | some sg =>
    let artist := sg.artist
    match st.artistAt artist with
    | none => none
    | some ar =>
      let artistAt1 := setAt st.artistAt artist (some { ar with songs := eraseAll ar.songs song })
      -- Remove from all playlists
      match removeFromPlaylists song st.allPlaylists st.playlistAt with
      | none => none
      | some playlistAt1 =>
        -- Remove from users' favorites
        match removeFromFavorites song st.allUsers st.userAt with
        | none => none
        | some userAt1 =>
          -- delete song
          some { st with
            songAt := setAt st.songAt song none
            artistAt := artistAt1
            playlistAt := playlistAt1
            userAt := userAt1
            allSongs := allSongs1 }

/-- Source: `Admin::createArtist`; `fresh` is the address returned by `new Artist`. -/
def Admin.createArtist (st : State) (fresh : Nat) (name : String) : State :=
  { st with
    artistAt := setAt st.artistAt fresh (some { name := name, songs := [], albums := [] })
    allArtists := st.allArtists ++ [fresh] }

/-- The loop `for (auto& song : artistSongs) removeSong(song);` of `Admin::removeArtist`. -/
def removeSongs : List Nat → State → Option State
  | [], st => some st
  | s :: ss, st =>
    match Admin.removeSong st s with
    | none => none
    | some st1 => removeSongs ss st1

/-- Source: `Admin::removeArtist`.  The artist's song vector is copied before
the loop, which then runs over the copy. -/
def Admin.removeArtist (st : State) (artist : Nat) : Option State :=
  match st.artistAt artist with
  | none => none
  | some ar =>
    -- First remove all songs by this artist
    let artistSongs := ar.songs
    match removeSongs artistSongs st with
    | none => none
    | some st1 =>
      -- Then remove the artist
      match st1.artistAt artist with
      | none => none
      | some _ =>
        some { st1 with
          allArtists := eraseAll st1.allArtists artist
          artistAt := setAt st1.artistAt artist none }

/-- Source: `Admin::createAlbum`, called on the admin at address `self`;
`fresh` is the address returned by `new Playlist`. -/
def Admin.createAlbum (st : State) (self : Nat) (fresh : Nat) (artist : Nat)
    (name : String) : Option State :=
  let album : Playlist := { name := name, songs := [], creator := self, isPublic := true }
  let st1 : State := { st with
    playlistAt := setAt st.playlistAt fresh (some album)
    allPlaylists := st.allPlaylists ++ [fresh] }
  match st1.artistAt artist with
  | none => none
  | some ar =>
    some { st1 with artistAt := setAt st1.artistAt artist (some (ar.addAlbum fresh)) }

/-! ## Personal playlists, search and registration -/

/-- Source: `User::deletePlaylist`, called on the user at address `self`.  The
iterator `it` is a position in `personalPlaylists`; only the element at `it`
is released and erased.  When nothing is found the function returns without
a change and without a signal. -/
def User.deletePlaylist (st : State) (self : Nat) (playlist : Nat) : Option State :=
  match st.userAt self with
  | none => none
  | some u =>
    let it := find u.personalPlaylists (some playlist)
    if it ≠ u.personalPlaylists.length then
      match u.personalPlaylists[it]? with
      | none => none
      | some q =>
        -- delete *it
        match st.playlistAt q with
        | none => none
        | some _ =>
          -- personalPlaylists.erase(it)
          some { st with
            playlistAt := setAt st.playlistAt q none
            userAt := setAt st.userAt self
              (some { u with personalPlaylists := u.personalPlaylists.eraseIdx it }) }
    else some st

/-- Modelled from the spec: the standard library's `std::string::find`, which
is not part of the sources and which the spec describes as a case-sensitive
substring match.  The call `s.find(q)` gives the first position at which `q`
occurs in `s` as a contiguous block, scanning from position 0; `none` stands
for `string::npos`.  Strings are lists of their `char` elements. -/
def stringFind (q : List Char) : List Char → Option Nat
  | [] => if q = [] then some 0 else none
  | c :: t => if q.isPrefixOf (c :: t) then some 0 else (stringFind q t).map (fun i => i + 1)

/-- The loop of `User::searchSongs` over the rest of `allSongs`; `results` is
the vector built so far.  The artist is dereferenced only when the title does
not match, as `||` evaluates its right side only then. -/
def searchSongsLoop (st : State) (query : String) : List Nat → List Nat → Option (List Nat)
  | [], results => some results
  | song :: rest, results =>
    match st.songAt song with
    | none => none
    | some sg =>
      if (stringFind query.data sg.title.data).isSome then
        searchSongsLoop st query rest (results ++ [song])
      else
        match st.artistAt sg.artist with
        | none => none
        | some ar =>
          if (stringFind query.data ar.name.data).isSome then
            searchSongsLoop st query rest (results ++ [song])
          else searchSongsLoop st query rest results

/-- Source: `User::searchSongs`; the function reads the global collections only. -/
def User.searchSongs (st : State) (query : String) : Option (List Nat) :=
  searchSongsLoop st query st.allSongs []

/-- The loop of `User::searchPlaylists` over the rest of `allPlaylists`. -/
def searchPlaylistsLoop (st : State) (query : String) : List Nat → List Nat → Option (List Nat)
  | [], results => some results
  | playlist :: rest, results =>
    match st.playlistAt playlist with
    | none => none
    | some pl =>
      if (stringFind query.data pl.name.data).isSome then
        searchPlaylistsLoop st query rest (results ++ [playlist])
      else searchPlaylistsLoop st query rest results

/-- Source: `User::searchPlaylists`. -/
def User.searchPlaylists (st : State) (query : String) : Option (List Nat) :=
  searchPlaylistsLoop st query st.allPlaylists []

/-- The loop of `loginMenu`, case 2, that looks for the username: the users
are dereferenced in order until the first one with that name (`break`). -/
def usernameExists (userAt : Nat → Option User) : List Nat → String → Option Bool
  | [], _ => some false
  | user :: rest, username =>
    match userAt user with
    | none => none
    | some u => if u.username = username then some true else usernameExists userAt rest username

/-- Source: `loginMenu`, case 2 (Register); `fresh` is the address returned by
`new User`.  The result holds whether the user was registered and the state
after the menu step: when the name exists, "Username already exists." is
printed and nothing changes. -/
def registerUser (st : State) (fresh : Nat) (username password : String) :
    Option (Bool × State) :=
  match usernameExists st.userAt st.allUsers username with
  | none => none
  | some true => some (false, st)
  | some false =>
    some (true, { st with
      userAt := setAt st.userAt fresh (some { username := username, password := password })
      allUsers := st.allUsers ++ [fresh] })

/-- A sequence of registrations, each given by the address `new User` would
return, the username and the password; a rejected one changes nothing. -/
def registerAll : State → List (Nat × String × String) → Option State
  | st, [] => some st
  | st, (fresh, username, password) :: rest =>
    match registerUser st fresh username password with
    | none => none
    | some (_, st1) => registerAll st1 rest

/-- The usernames of the users in the global User collection, in its order. -/
def State.usernames (st : State) : List String :=
  st.allUsers.filterMap (fun u => (st.userAt u).map User.username)

/-- Specification side of the song search: the song at `s` has a title, or an
owning artist with a name, that contains `query` as a contiguous substring. -/
def State.songMatches (st : State) (query : String) (s : Nat) : Bool :=
  match st.songAt s with
  | none => false
  | some sg =>
    decide (query.data <:+: sg.title.data) ||
      (match st.artistAt sg.artist with
       | none => false
       | some ar => decide (query.data <:+: ar.name.data))

/-- Specification side of the playlist search: the playlist at `p` has a name
that contains `query` as a contiguous substring. -/
def State.playlistMatches (st : State) (query : String) (p : Nat) : Bool :=
  match st.playlistAt p with
  | none => false
  | some pl => decide (query.data <:+: pl.name.data)

/-! ## Sample states -/

/-- A catalog as `initializeSystem` builds it (admin at user address 1, artists
at 10 and 11, songs at 100 to 103, albums at 200 and 201), after the user
"alice" (address 300) registered, put "Song One" on her favorites, created
the personal playlist "mine" (address 202) and added "Song One" to it. -/
def demoState : State :=
  { songAt := fun q =>
      if q = 100 then some { title := "Song One", artist := 10, releaseYear := 2020, genre := "Pop" }
      else if q = 101 then some { title := "Song Two", artist := 10, releaseYear := 2021, genre := "Rock" }
      else if q = 102 then some { title := "Song Three", artist := 11, releaseYear := 2019, genre := "Jazz" }
      else if q = 103 then some { title := "Song Four", artist := 11, releaseYear := 2022, genre := "Electronic" }
      else none
    artistAt := fun q =>
      if q = 10 then some { name := "Artist One", songs := [100, 101], albums := [200] }
      else if q = 11 then some { name := "Artist Two", songs := [102, 103], albums := [201] }
      else none
    playlistAt := fun q =>
      if q = 200 then some { name := "First Album", songs := [100, 101], creator := 1 }
      else if q = 201 then some { name := "Debut Album", songs := [102, 103], creator := 1 }
      else if q = 202 then some { name := "mine", songs := [100], creator := 300 }
      else none
    userAt := fun q =>
      if q = 1 then some { username := "admin", password := "admin123" }
      else if q = 300 then
        some { username := "alice", password := "pw", favoriteSongs := [100],
               personalPlaylists := [202] }
      else none
    allSongs := [100, 101, 102, 103]
    allPlaylists := [200, 201]
    allArtists := [10, 11]
    allUsers := [300]
    admin := some 1 }

/-- A session of alice on the sample catalog: she plays "First Album"
(address 200, songs 100 and 101) and is at "Song One" (address 100). -/
def demoUser : User :=
  { username := "alice", password := "pw", favoriteSongs := [100], personalPlaylists := [202],
    currentPlaylist := some 200, currentSong := some 100 }

/-- The sample catalog with one more live `Song` object, at address 104, that
is not in `allSongs` (the constructor of `Song` is public, so such an object
can exist); "First Album" lists it. -/
def looseState : State :=
  { demoState with
    songAt := setAt demoState.songAt 104
      (some { title := "Loose", artist := 10, releaseYear := 2024, genre := "Pop" })
    playlistAt := setAt demoState.playlistAt 200
      (some { name := "First Album", songs := [100, 101, 104], creator := 1 }) }

/-- A catalog with 32769 songs (addresses 0 to 32768), all by the artist at
address 10 and all on the album "Box Set" at address 200. -/
def bigState : State :=
  { songAt := fun q =>
      if q < 32769 then
        some { title := "Track", artist := 10, releaseYear := 2024, genre := "Pop" }
      else none
    artistAt := fun q =>
      if q = 10 then some { name := "Artist One", songs := List.range 32769, albums := [200] }
      else none
    playlistAt := fun q =>
      if q = 200 then some { name := "Box Set", songs := List.range 32769, creator := 1 }
      else none
    userAt := fun q =>
      if q = 1 then some { username := "admin", password := "admin123" }
      else if q = 300 then some { username := "alice", password := "pw" }
      else none
    allSongs := List.range 32769
    allPlaylists := [200]
    allArtists := [10]
    allUsers := [300]
    admin := some 1 }

/-- A session of alice on the big catalog: she plays "Box Set" in RANDOM mode
and is at its first song. -/
def bigUser : User :=
  { username := "alice", password := "pw", currentPlaylist := some 200, currentSong := some 0,
    playbackMode := PlaybackMode.RANDOM }

/-! ## State predicates -/

/-- Deciding `∃ x, o = some x ∧ P x` by looking at the option. -/
instance decExistsSome {α : Type} (o : Option α) (P : α → Prop) [∀ x, Decidable (P x)] :
    Decidable (∃ x, o = some x ∧ P x) :=
  match o with
  | none => isFalse (by simp)
  | some x => decidable_of_iff (P x) (by simp)

/-- The song pointer `s` can be dereferenced, and so can the `Artist*` it holds. -/
def State.songOk (st : State) (s : Nat) : Prop :=
  match st.songAt s with
  | none => False
  | some sg => (st.artistAt sg.artist).isSome = true

instance (st : State) (s : Nat) : Decidable (st.songOk s) := by
  unfold State.songOk
  cases st.songAt s <;> infer_instance

/-- The artist pointer `a` is live, its song vector holds no pointer twice, and
every song on it can be dereferenced together with that song's artist. -/
def State.artistOk (st : State) (a : Nat) : Prop :=
  match st.artistAt a with
  | none => False
  | some ar => ar.songs.Nodup ∧ ∀ s ∈ ar.songs, st.songOk s

instance (st : State) (a : Nat) : Decidable (st.artistOk a) := by
  unfold State.artistOk
  cases st.artistAt a <;> infer_instance

/-- Pointer validity of a catalog state, as the C++ code needs it for defined
behaviour: the global collections hold live objects, each catalog song's
artist pointer is live, and each catalog artist's song vector is a
duplicate-free vector of live songs. -/
def State.Valid (st : State) : Prop :=
  (∀ s ∈ st.allSongs, st.songOk s) ∧
  (∀ a ∈ st.allArtists, st.artistOk a) ∧
  (∀ p ∈ st.allPlaylists, (st.playlistAt p).isSome = true) ∧
  (∀ u ∈ st.allUsers, (st.userAt u).isSome = true)

instance (st : State) : Decidable st.Valid := by
  unfold State.Valid
  infer_instance

/-- The owner of a song: `song->getArtist()`, when `song` is live. -/
def State.ownerOf (st : State) (s : Nat) : Option Nat :=
  (st.songAt s).map Song.artist

/-- The song vector of an artist: `artist->getSongs()`, when `artist` is live. -/
def State.songsOf (st : State) (a : Nat) : Option (List Nat) :=
  (st.artistAt a).map Artist.songs

/-- Invariant I1: every song of the global Song collection is live and its
artist pointer is in the global Artist collection. -/
def State.I1 (st : State) : Prop :=
  ∀ s ∈ st.allSongs, ∃ a ∈ st.allArtists, st.ownerOf s = some a

instance (st : State) : Decidable st.I1 := by
  unfold State.I1
  infer_instance

/-- First half of I2: whatever is on the song vector of a catalog artist is a
catalog song owned by that artist (no other artist references it). -/
def State.listedOwned (st : State) : Prop :=
  ∀ a ∈ st.allArtists, ∃ l, st.songsOf a = some l ∧
    ∀ s ∈ l, s ∈ st.allSongs ∧ st.ownerOf s = some a

instance (st : State) : Decidable st.listedOwned := by
  unfold State.listedOwned
  infer_instance

/-- Second half of I2: each catalog song is on the song vector of its owner. -/
def State.ownerLists (st : State) : Prop :=
  ∀ s ∈ st.allSongs, ∀ a ∈ st.allArtists, st.ownerOf s = some a →
    ∃ l, st.songsOf a = some l ∧ s ∈ l

instance (st : State) : Decidable st.ownerLists := by
  unfold State.ownerLists
  infer_instance

/-- Invariant I2: a song is on a catalog artist's song vector exactly when it
is a catalog song owned by that artist. -/
def State.I2 (st : State) : Prop :=
  st.listedOwned ∧ st.ownerLists

instance (st : State) : Decidable st.I2 := by
  unfold State.I2
  infer_instance

/-! ## Sequences of membership operations -/

/-- The idiom `if (find(v.begin(), v.end(), p) == v.end()) v.push_back(p);`
shared by the `add` member functions, on the vector alone. -/
def pushUnique (v : List Nat) (p : Nat) : List Nat :=
  if find v (some p) = v.length then v ++ [p] else v

/-- A call of one of the membership operations of `Playlist`. -/
inductive PlaylistOp where
  | addSong (song : Nat)
  | removeSong (song : Nat)
  deriving DecidableEq, Repr

/-- Performs the call on the playlist. -/
def PlaylistOp.run (pl : Playlist) : PlaylistOp → Playlist
  | PlaylistOp.addSong s => pl.addSong s
  | PlaylistOp.removeSong s => pl.removeSong s

/-- A call of one of the membership operations of `Artist`. -/
inductive ArtistOp where
  | addSong (song : Nat)
  | addAlbum (album : Nat)
  deriving DecidableEq, Repr

/-- Performs the call on the artist. -/
def ArtistOp.run (ar : Artist) : ArtistOp → Artist
  | ArtistOp.addSong s => ar.addSong s
  | ArtistOp.addAlbum p => ar.addAlbum p

/-- A call of one of the favorites operations of `User`. -/
inductive UserOp where
  | addFavoriteSong (song : Nat)
  | removeFavoriteSong (song : Nat)
  | addFavoritePlaylist (playlist : Nat)
  | removeFavoritePlaylist (playlist : Nat)
  deriving DecidableEq, Repr

/-- Performs the call on the user. -/
def UserOp.run (u : User) : UserOp → User
  | UserOp.addFavoriteSong s => u.addFavoriteSong s
  | UserOp.removeFavoriteSong s => u.removeFavoriteSong s
  | UserOp.addFavoritePlaylist p => u.addFavoritePlaylist p
  | UserOp.removeFavoritePlaylist p => u.removeFavoritePlaylist p

/-- Specification side of "insertion order of first additions": the distinct
entries of a sequence of additions, each at the place of its first occurrence. -/
def firstAdditions : List Nat → List Nat
  | [] => []
  | x :: xs => x :: (firstAdditions xs).filter (fun y => y != x)

/-! ## Lemmas on the primitives -/

@[simp] theorem setAt_same {α : Type} (h : Nat → Option α) (p : Nat) (v : Option α) :
    setAt h p v p = v := by
  simp [setAt]

theorem setAt_other {α : Type} (h : Nat → Option α) (p q : Nat) (v : Option α) (hne : q ≠ p) :
    setAt h p v q = h q := by
  simp [setAt, hne]

theorem find_none (v : List Nat) : find v none = v.length := by
  induction v with
  | nil => rfl
  | cons x xs ih => simp [find, ih]

theorem find_le (v : List Nat) (p : Option Nat) : find v p ≤ v.length := by
  induction v with
  | nil => simp [find]
  | cons x xs ih =>
    simp only [find, List.length_cons]
    split <;> omega

theorem find_eq_length_iff (v : List Nat) (p : Nat) : find v (some p) = v.length ↔ p ∉ v := by
  induction v with
  | nil => simp [find]
  | cons x xs ih =>
    simp only [find, List.length_cons, List.mem_cons, not_or, Option.some.injEq]
    by_cases h : p = x
    · simp [h]
    · simp [h, ih]

theorem find_append_cons (pre post : List Nat) (c : Nat) (h : c ∉ pre) :
    find (pre ++ c :: post) (some c) = pre.length := by
  induction pre with
  | nil => simp [find]
  | cons x xs ih =>
    simp only [List.mem_cons, not_or] at h
    simp [find, h.1, ih h.2]

theorem mem_eraseAll (v : List Nat) (p x : Nat) : x ∈ eraseAll v p ↔ x ∈ v ∧ x ≠ p := by
  simp [eraseAll]

theorem not_mem_eraseAll_self (v : List Nat) (p : Nat) : p ∉ eraseAll v p := by
  simp [eraseAll]

theorem eraseAll_idem (v : List Nat) (p : Nat) : eraseAll (eraseAll v p) p = eraseAll v p := by
  simp [eraseAll]

theorem eraseAll_nodup (v : List Nat) (p : Nat) (h : v.Nodup) : (eraseAll v p).Nodup :=
  h.filter _

/-! ## Lemmas on `Admin::removeSong` -/

/-- The playlist heap after `Playlist::removeSong(song)` was called on every playlist in `ps`. -/
theorem removeFromPlaylists_eq (song : Nat) (ps : List Nat) (h : Nat → Option Playlist)
    (hlive : ∀ p ∈ ps, (h p).isSome = true) :
    removeFromPlaylists song ps h =
      some (fun q => if q ∈ ps then (h q).map (fun pl => pl.removeSong song) else h q) := by
  induction ps generalizing h with
  | nil => simp [removeFromPlaylists]
  | cons p ps ih =>
    have hp := hlive p (List.mem_cons_self _ _)
    obtain ⟨pl, hpl⟩ := Option.isSome_iff_exists.mp hp
    simp only [removeFromPlaylists, hpl]
    rw [ih]
    · congr 1
      funext q
      by_cases hq : q = p
      · subst hq
        by_cases hmem : q ∈ ps
        · simp [hmem, hpl, Playlist.removeSong, eraseAll_idem]
        · simp [hmem, hpl]
      · simp [hq, setAt_other _ _ _ _ hq]
    · intro q hq
      by_cases hqp : q = p
      · simp [hqp]
      · rw [setAt_other _ _ _ _ hqp]
        exact hlive q (List.mem_cons_of_mem _ hq)

/-- The user heap after `User::removeFavoriteSong(song)` was called on every user in `us`. -/
theorem removeFromFavorites_eq (song : Nat) (us : List Nat) (h : Nat → Option User)
    (hlive : ∀ u ∈ us, (h u).isSome = true) :
    removeFromFavorites song us h =
      some (fun q => if q ∈ us then (h q).map (fun usr => usr.removeFavoriteSong song) else h q) := by
  induction us generalizing h with
  | nil => simp [removeFromFavorites]
  | cons u us ih =>
    have hu := hlive u (List.mem_cons_self _ _)
    obtain ⟨usr, husr⟩ := Option.isSome_iff_exists.mp hu
    simp only [removeFromFavorites, husr]
    rw [ih]
    · congr 1
      funext q
      by_cases hq : q = u
      · subst hq
        by_cases hmem : q ∈ us
        · simp [hmem, husr, User.removeFavoriteSong, eraseAll_idem]
        · simp [hmem, husr]
      · simp [hq, setAt_other _ _ _ _ hq]
    · intro q hq
      by_cases hqu : q = u
      · simp [hqu]
      · rw [setAt_other _ _ _ _ hqu]
        exact hlive q (List.mem_cons_of_mem _ hq)

/-- The state after `Admin::removeSong`, when every pointer it dereferences is live. -/
theorem removeSong_eq (st : State) (song : Nat) (sg : Song) (ar : Artist)
    (hsg : st.songAt song = some sg) (har : st.artistAt sg.artist = some ar)
    (hpl : ∀ p ∈ st.allPlaylists, (st.playlistAt p).isSome = true)
    (hus : ∀ u ∈ st.allUsers, (st.userAt u).isSome = true) :
    Admin.removeSong st song = some { st with
      songAt := setAt st.songAt song none
      artistAt := setAt st.artistAt sg.artist (some { ar with songs := eraseAll ar.songs song })
      playlistAt := fun q => if q ∈ st.allPlaylists
        then (st.playlistAt q).map (fun pl => pl.removeSong song) else st.playlistAt q
      userAt := fun q => if q ∈ st.allUsers
        then (st.userAt q).map (fun usr => usr.removeFavoriteSong song) else st.userAt q
      allSongs := eraseAll st.allSongs song } := by
  simp only [Admin.removeSong, hsg, har, removeFromPlaylists_eq song _ _ hpl,
    removeFromFavorites_eq song _ _ hus]

/-! ## Deleting a song -/

/-- Claim C1.  In a valid catalog state, `Admin::removeSong` called on a song `S` of
the global Song collection completes, and afterwards `S` is absent from the
global Song collection, from its owning artist's song list, from the member
list of every playlist of the global Playlist collection and from the
favorite songs of every user of the global User collection. -/
theorem removeSong_no_dangling (st : State) (S : Nat) (hv : st.Valid) (hS : S ∈ st.allSongs) :
    ∃ st' sg, st.songAt S = some sg ∧ Admin.removeSong st S = some st' ∧
      S ∉ st'.allSongs ∧
      (∃ ar', st'.artistAt sg.artist = some ar' ∧ S ∉ ar'.songs) ∧
      st'.allPlaylists = st.allPlaylists ∧
      (∀ p ∈ st'.allPlaylists, ∃ pl, st'.playlistAt p = some pl ∧ S ∉ pl.songs) ∧
      st'.allUsers = st.allUsers ∧
      (∀ u ∈ st'.allUsers, ∃ usr, st'.userAt u = some usr ∧ S ∉ usr.favoriteSongs) := by
  obtain ⟨hsongs, -, hpl, hus⟩ := hv
  have hok := hsongs S hS
  unfold State.songOk at hok
  cases hsg : st.songAt S with
  | none => simp [hsg] at hok
  | some sg =>
    simp only [hsg] at hok
    obtain ⟨ar, har⟩ := Option.isSome_iff_exists.mp hok
    refine ⟨_, sg, rfl, removeSong_eq st S sg ar hsg har hpl hus, ?_, ?_, rfl, ?_, rfl, ?_⟩
    · exact not_mem_eraseAll_self _ _
    · exact ⟨_, setAt_same _ _ _, not_mem_eraseAll_self _ _⟩
    · intro p hp
      obtain ⟨pl, hplp⟩ := Option.isSome_iff_exists.mp (hpl p hp)
      have hp' : p ∈ st.allPlaylists := hp
      exact ⟨pl.removeSong S, by simp [hp', hplp], not_mem_eraseAll_self _ _⟩
    · intro u hu
      obtain ⟨usr, husr⟩ := Option.isSome_iff_exists.mp (hus u hu)
      have hu' : u ∈ st.allUsers := hu
      exact ⟨usr.removeFavoriteSong S, by simp [hu', husr], not_mem_eraseAll_self _ _⟩

/-- Witness for C1: "Song One" (address 100) is removed from the sample catalog. -/
theorem removeSong_no_dangling_witness :
    demoState.Valid ∧ 100 ∈ demoState.allSongs ∧
    ∃ st' sg, demoState.songAt 100 = some sg ∧ Admin.removeSong demoState 100 = some st' ∧
      100 ∉ st'.allSongs ∧
      (∃ ar', st'.artistAt sg.artist = some ar' ∧ 100 ∉ ar'.songs) ∧
      st'.allPlaylists = demoState.allPlaylists ∧
      (∀ p ∈ st'.allPlaylists, ∃ pl, st'.playlistAt p = some pl ∧ 100 ∉ pl.songs) ∧
      st'.allUsers = demoState.allUsers ∧
      (∀ u ∈ st'.allUsers, ∃ usr, st'.userAt u = some usr ∧ 100 ∉ usr.favoriteSongs) :=
  ⟨by decide, by decide, removeSong_no_dangling demoState 100 (by decide) (by decide)⟩

theorem songOk_iff (st : State) (s : Nat) :
    st.songOk s ↔ ∃ sg ar, st.songAt s = some sg ∧ st.artistAt sg.artist = some ar := by
  unfold State.songOk
  cases h : st.songAt s with
  | none => simp
  | some sg => simp [Option.isSome_iff_exists]

theorem eraseAll_filter_not_mem (l ss : List Nat) (s : Nat) :
    (eraseAll l s).filter (fun x => decide (x ∉ ss)) =
      l.filter (fun x => decide (x ∉ s :: ss)) := by
  simp only [eraseAll, List.filter_filter]
  apply List.filter_congr
  intro x _
  by_cases h1 : x = s <;> by_cases h2 : x ∈ ss <;> simp [h1, h2]

theorem removeSongs_eq (ss : List Nat) (st : State) (hnd : ss.Nodup)
    (hok : ∀ s ∈ ss, st.songOk s)
    (hpl : ∀ p ∈ st.allPlaylists, (st.playlistAt p).isSome = true)
    (hus : ∀ u ∈ st.allUsers, (st.userAt u).isSome = true) :
    removeSongs ss st = some { st with
      songAt := fun q => if q ∈ ss then none else st.songAt q
      artistAt := fun a => (st.artistAt a).map (fun ar =>
        { ar with songs :=
            ar.songs.filter (fun x => !(decide (x ∈ ss) && decide (st.ownerOf x = some a))) })
      playlistAt := fun q => if q ∈ st.allPlaylists
        then (st.playlistAt q).map (fun pl =>
          { pl with songs := pl.songs.filter (fun x => decide (x ∉ ss)) })
        else st.playlistAt q
      userAt := fun q => if q ∈ st.allUsers
        then (st.userAt q).map (fun usr =>
          { usr with favoriteSongs := usr.favoriteSongs.filter (fun x => decide (x ∉ ss)) })
        else st.userAt q
      allSongs := st.allSongs.filter (fun x => decide (x ∉ ss)) } := by
  induction ss generalizing st with
  | nil =>
    simp only [removeSongs, List.not_mem_nil, if_false, decide_False, Bool.false_and,
      Bool.not_false, List.filter_true, not_false_eq_true, decide_True]
    congr 1
    cases st
    simp only [State.mk.injEq, and_true, true_and]
    refine ⟨?_, ?_, ?_⟩
    · funext a; cases h : ‹Nat → Option Artist› a <;> simp [h]
    · funext q; split
      · cases h : ‹Nat → Option Playlist› q <;> simp [h]
      · rfl
    · funext q; split
      · cases h : ‹Nat → Option User› q <;> simp [h]
      · rfl
  | cons s ss ih =>
    obtain ⟨hs, hnd'⟩ := List.nodup_cons.mp hnd
    obtain ⟨sg, ar, hsg, har⟩ := (songOk_iff st s).mp (hok s (List.mem_cons_self _ _))
    simp only [removeSongs, removeSong_eq st s sg ar hsg har hpl hus]
    have hne : ∀ x ∈ ss, x ≠ s := fun x hx hxs => hs (hxs ▸ hx)
    rw [ih _ hnd']
    · congr 1
      simp only [State.mk.injEq, and_true, true_and]
      refine ⟨?_, ?_, ?_, ?_, ?_⟩
      · funext q
        by_cases hq : q = s <;> simp [setAt, hq, List.mem_cons]
      · funext a
        have hfil : ∀ l : List Nat,
            (if a = sg.artist then eraseAll l s else l).filter (fun x => !(decide (x ∈ ss) &&
              decide ((setAt st.songAt s none x).map Song.artist = some a))) =
            l.filter (fun x => !(decide (x ∈ s :: ss) && decide (st.ownerOf x = some a))) := by
          intro l
          by_cases ha : a = sg.artist
          · simp only [ha, if_true, eraseAll, List.filter_filter]
            apply List.filter_congr
            intro x _
            by_cases h1 : x = s
            · simp [h1, State.ownerOf, hsg]
            · by_cases h2 : x ∈ ss <;> simp [h1, h2, State.ownerOf, setAt_other _ _ _ _ h1]
          · simp only [ha, if_false]
            apply List.filter_congr
            intro x _
            by_cases h1 : x = s
            · have : ¬ sg.artist = a := fun h => ha h.symm
              simp [h1, State.ownerOf, hsg, this, hs]
            · by_cases h2 : x ∈ ss <;> simp [h1, h2, State.ownerOf, setAt_other _ _ _ _ h1]
        by_cases ha : a = sg.artist
        · have h := hfil ar.songs
          simp only [ha, if_true] at h
          simp only [ha, setAt_same, har, Option.map_some', State.ownerOf, Option.some.injEq,
            Artist.mk.injEq, true_and, and_true]
          exact h
        · have h := hfil
          simp only [ha, if_false] at h
          rw [setAt_other _ _ _ _ ha]
          cases hst : st.artistAt a with
          | none => rfl
          | some ar0 =>
            simp only [Option.map_some', State.ownerOf, Option.some.injEq, Artist.mk.injEq,
              true_and, and_true]
            exact h ar0.songs
      · funext q
        by_cases hq : q ∈ st.allPlaylists
        · cases h : st.playlistAt q with
          | none => simp [hq, h]
          | some pl =>
            simp only [hq, if_true, h, Option.map_some', Playlist.removeSong, Option.some.injEq,
              Playlist.mk.injEq, true_and, and_true]
            exact eraseAll_filter_not_mem _ _ _
        · simp [hq]
      · funext q
        by_cases hq : q ∈ st.allUsers
        · cases h : st.userAt q with
          | none => simp [hq, h]
          | some usr =>
            simp only [hq, if_true, h, Option.map_some', User.removeFavoriteSong,
              Option.some.injEq, User.mk.injEq, true_and, and_true]
            exact eraseAll_filter_not_mem _ _ _
        · simp [hq]
      · exact eraseAll_filter_not_mem _ _ _
    · intro x hx
      rw [songOk_iff]
      obtain ⟨sg', ar', hsg', har'⟩ := (songOk_iff st x).mp (hok x (List.mem_cons_of_mem _ hx))
      refine ⟨sg', ?_⟩
      simp only [setAt_other _ _ _ _ (hne x hx), hsg', true_and]
      by_cases ha : sg'.artist = sg.artist
      · simp [ha]
      · simp [setAt_other _ _ _ _ ha, har']
    · intro p hp
      have hp' : p ∈ st.allPlaylists := hp
      obtain ⟨pl, hplp⟩ := Option.isSome_iff_exists.mp (hpl p hp')
      simp [hp', hplp]
    · intro u hu
      have hu' : u ∈ st.allUsers := hu
      obtain ⟨usr, husr⟩ := Option.isSome_iff_exists.mp (hus u hu')
      simp [hu', husr]

/-- The state after `Admin::removeArtist`, when every pointer it dereferences is live. -/
theorem removeArtist_eq (st : State) (A : Nat) (ar : Artist) (hA : st.artistAt A = some ar)
    (hnd : ar.songs.Nodup) (hok : ∀ s ∈ ar.songs, st.songOk s)
    (hpl : ∀ p ∈ st.allPlaylists, (st.playlistAt p).isSome = true)
    (hus : ∀ u ∈ st.allUsers, (st.userAt u).isSome = true) :
    Admin.removeArtist st A = some { st with
      songAt := fun q => if q ∈ ar.songs then none else st.songAt q
      artistAt := setAt (fun a => (st.artistAt a).map (fun ar0 =>
        { ar0 with songs :=
            ar0.songs.filter (fun x => !(decide (x ∈ ar.songs) && decide (st.ownerOf x = some a))) }))
        A none
      playlistAt := fun q => if q ∈ st.allPlaylists
        then (st.playlistAt q).map (fun pl =>
          { pl with songs := pl.songs.filter (fun x => decide (x ∉ ar.songs)) })
        else st.playlistAt q
      userAt := fun q => if q ∈ st.allUsers
        then (st.userAt q).map (fun usr =>
          { usr with favoriteSongs := usr.favoriteSongs.filter (fun x => decide (x ∉ ar.songs)) })
        else st.userAt q
      allSongs := st.allSongs.filter (fun x => decide (x ∉ ar.songs))
      allArtists := eraseAll st.allArtists A } := by
  simp only [Admin.removeArtist, hA, removeSongs_eq ar.songs st hnd hok hpl hus, Option.map_some']

theorem artistOk_iff (st : State) (a : Nat) :
    st.artistOk a ↔ ∃ ar, st.artistAt a = some ar ∧ ar.songs.Nodup ∧ ∀ s ∈ ar.songs, st.songOk s := by
  unfold State.artistOk
  cases h : st.artistAt a <;> simp

/-- Claim C2.  In a valid catalog state in which each song's owner lists it,
`Admin::removeArtist` called on an artist `A` of the global Artist collection
completes; afterwards `A` is absent from the global Artist collection, and
every song that was on `A`'s song list (which includes every catalog song
owned by `A`) is absent from the global Song collection, from the member
list of every global playlist and from the favorites of every catalog user. -/
theorem removeArtist_cascade (st : State) (A : Nat) (hv : st.Valid) (hown : st.ownerLists)
    (hA : A ∈ st.allArtists) :
    ∃ st' ar, st.artistAt A = some ar ∧ Admin.removeArtist st A = some st' ∧
      A ∉ st'.allArtists ∧
      st'.allPlaylists = st.allPlaylists ∧ st'.allUsers = st.allUsers ∧
      ∀ s, s ∈ ar.songs ∨ (s ∈ st.allSongs ∧ st.ownerOf s = some A) →
        s ∉ st'.allSongs ∧
        (∀ p ∈ st'.allPlaylists, ∃ pl, st'.playlistAt p = some pl ∧ s ∉ pl.songs) ∧
        (∀ u ∈ st'.allUsers, ∃ usr, st'.userAt u = some usr ∧ s ∉ usr.favoriteSongs) := by
  obtain ⟨-, harts, hpl, hus⟩ := hv
  obtain ⟨ar, har, hnd, hok⟩ := (artistOk_iff st A).mp (harts A hA)
  refine ⟨_, ar, har, removeArtist_eq st A ar har hnd hok hpl hus, not_mem_eraseAll_self _ _,
    rfl, rfl, ?_⟩
  intro s hs
  have hmem : s ∈ ar.songs := by
    rcases hs with h | ⟨h1, h2⟩
    · exact h
    · obtain ⟨l, hl, hsl⟩ := hown s h1 A hA h2
      simp only [State.songsOf, har, Option.map_some', Option.some.injEq] at hl
      exact hl ▸ hsl
  refine ⟨by simp [hmem], ?_, ?_⟩
  · intro p hp
    have hp' : p ∈ st.allPlaylists := hp
    obtain ⟨pl, hplp⟩ := Option.isSome_iff_exists.mp (hpl p hp')
    refine ⟨{ pl with songs := pl.songs.filter (fun x => decide (x ∉ ar.songs)) }, ?_, ?_⟩
    · simp only [hp', if_true, hplp, Option.map_some']
    · simp [hmem]
  · intro u hu
    have hu' : u ∈ st.allUsers := hu
    obtain ⟨usr, husr⟩ := Option.isSome_iff_exists.mp (hus u hu')
    refine ⟨{ usr with favoriteSongs :=
      usr.favoriteSongs.filter (fun x => decide (x ∉ ar.songs)) }, ?_, ?_⟩
    · simp only [hu', if_true, husr, Option.map_some']
    · simp [hmem]

/-- Witness for C2: "Artist One" (address 10) is removed from the sample catalog. -/
theorem removeArtist_cascade_witness :
    demoState.Valid ∧ demoState.ownerLists ∧ 10 ∈ demoState.allArtists ∧
    ∃ st' ar, demoState.artistAt 10 = some ar ∧ Admin.removeArtist demoState 10 = some st' ∧
      10 ∉ st'.allArtists ∧
      st'.allPlaylists = demoState.allPlaylists ∧ st'.allUsers = demoState.allUsers ∧
      ∀ s, s ∈ ar.songs ∨ (s ∈ demoState.allSongs ∧ demoState.ownerOf s = some 10) →
        s ∉ st'.allSongs ∧
        (∀ p ∈ st'.allPlaylists, ∃ pl, st'.playlistAt p = some pl ∧ s ∉ pl.songs) ∧
        (∀ u ∈ st'.allUsers, ∃ usr, st'.userAt u = some usr ∧ s ∉ usr.favoriteSongs) :=
  ⟨by decide, by decide, by decide,
    removeArtist_cascade demoState 10 (by decide) (by decide) (by decide)⟩

/-- Claim C3, evaluated on the sample catalog.  After `Admin::removeSong` released
"Song One" (address 100), alice's personal playlist "mine" (address 202, held
on her own list only) still has the released pointer on its member list. -/
theorem removeSong_leaves_personal_playlist :
    ∃ st', Admin.removeSong demoState 100 = some st' ∧
      st'.songAt 100 = none ∧ 100 ∉ st'.allSongs ∧
      300 ∈ st'.allUsers ∧
      (∃ usr, st'.userAt 300 = some usr ∧ 202 ∈ usr.personalPlaylists) ∧
      (∃ pl, st'.playlistAt 202 = some pl ∧ 100 ∈ pl.songs) := by
  refine ⟨_, removeSong_eq demoState 100 _ _ rfl rfl (by decide) (by decide), ?_, ?_, ?_, ?_, ?_⟩
  · decide
  · decide
  · decide
  · exact ⟨_, rfl, by decide⟩
  · exact ⟨_, rfl, by decide⟩

/-! ## Playback navigation -/

theorem find_lt_of_mem (v : List Nat) (c : Nat) (h : c ∈ v) : find v (some c) ≠ v.length :=
  fun he => (find_eq_length_iff v c).mp he h

theorem find_not_mem (v : List Nat) (p : Option Nat) (h : ∀ c, p = some c → c ∉ v) :
    find v p = v.length := by
  cases p with
  | none => exact find_none v
  | some c => exact (find_eq_length_iff v c).mpr (h c rfl)

theorem getElem?_after (pre post : List Nat) (c nxt : Nat) :
    (pre ++ c :: nxt :: post)[pre.length + 1]? = some nxt := by
  induction pre with
  | nil => simp
  | cons x xs ih => simpa using ih

theorem getElem?_before (pre post : List Nat) (prv c : Nat) :
    (pre ++ prv :: c :: post)[(pre ++ [prv]).length - 1]? = some prv := by
  induction pre with
  | nil => simp
  | cons x xs ih => simpa using ih

/-- Claim C5.  In SEQUENTIAL mode, on a duplicate-free current playlist
`pre ++ c :: post` with current song `c`, `User::getNextSong` returns the head
of `post`, the song right after `c`; when `c` is the last song it returns the
playlist's first song if the loop flag is set and `nullptr` otherwise.  In
particular on `[a, b, c]` with the loop flag off and current song `a`,
calling it and committing each result yields `b`, then `c`, then `nullptr`. -/
theorem getNextSong_sequential :
    (∀ (st : State) (u : User) (p : Nat) (pl : Playlist) (pre post : List Nat) (c rand : Nat),
      u.currentPlaylist = some p → st.playlistAt p = some pl →
      u.playbackMode = PlaybackMode.SEQUENTIAL → u.currentSong = some c →
      pl.songs = pre ++ c :: post → pl.songs.Nodup →
      User.getNextSong st u rand = some
        (match post with
         | nxt :: _ => some nxt
         | [] => if u.isLooping = true then pl.songs.head? else none)) ∧
    (∀ (st : State) (u : User) (p : Nat) (pl : Playlist) (a b c r1 r2 r3 : Nat),
      u.currentPlaylist = some p → st.playlistAt p = some pl →
      u.playbackMode = PlaybackMode.SEQUENTIAL → u.isLooping = false →
      u.currentSong = some a → pl.songs = [a, b, c] → pl.songs.Nodup →
      User.getNextSong st u r1 = some (some b) ∧
      User.getNextSong st (u.setCurrentSong (some b)) r2 = some (some c) ∧
      User.getNextSong st ((u.setCurrentSong (some b)).setCurrentSong (some c)) r3 =
        some none) := by
  have gen : ∀ (st : State) (u : User) (p : Nat) (pl : Playlist) (pre post : List Nat)
      (c rand : Nat),
      u.currentPlaylist = some p → st.playlistAt p = some pl →
      u.playbackMode = PlaybackMode.SEQUENTIAL → u.currentSong = some c →
      pl.songs = pre ++ c :: post → pl.songs.Nodup →
      User.getNextSong st u rand = some
        (match post with
         | nxt :: _ => some nxt
         | [] => if u.isLooping = true then pl.songs.head? else none) := by
    intro st u p pl pre post c rand hcp hpl hmode hcs hsongs hnd
    have hc : c ∉ pre := by
      rw [hsongs] at hnd
      have := (List.nodup_append.mp hnd).2.2
      intro hmem
      exact (List.disjoint_left.mp this hmem) (List.mem_cons_self _ _)
    have hfind : find pl.songs (some c) = pre.length := by
      rw [hsongs]; exact find_append_cons pre post c hc
    have hne : pl.songs ≠ [] := by rw [hsongs]; simp
    simp only [User.getNextSong, hcp, hpl, hne, if_false, hcs, hfind, hmode]
    cases post with
    | nil =>
      simp only [hsongs, List.length_append, List.length_cons, List.length_nil]
      cases pre <;> cases u.isLooping <;> simp
    | cons nxt post' =>
      simp only [hsongs, List.length_append, List.length_cons]
      have h1 : ¬ (pre.length = pre.length + (post'.length + 1 + 1)) := by omega
      have h2 : ¬ (pre.length + 1 = pre.length + (post'.length + 1 + 1)) := by omega
      simp only [h1, h2, if_false, ne_eq, not_false_eq_true, if_true, getElem?_after,
        Option.map_some']
  refine ⟨gen, ?_⟩
  intro st u p pl a b c r1 r2 r3 hcp hpl hmode hloop hcs hsongs hnd
  refine ⟨?_, ?_, ?_⟩
  · have := gen st u p pl [] [b, c] a r1 hcp hpl hmode hcs (by simpa using hsongs) hnd
    simpa using this
  · have := gen st (u.setCurrentSong (some b)) p pl [a] [c] b r2 hcp hpl hmode rfl
      (by simpa using hsongs) hnd
    simpa using this
  · have := gen st ((u.setCurrentSong (some b)).setCurrentSong (some c)) p pl [a, b] [] c r3
      hcp hpl hmode rfl (by simpa using hsongs) hnd
    have hl : ((u.setCurrentSong (some b)).setCurrentSong (some c)).isLooping = false := hloop
    simpa [hl] using this

/-- Claim C6.  In SEQUENTIAL mode, on a duplicate-free current playlist
`pre ++ c :: post` with current song `c`, `User::getPreviousSong` returns the
last song of `pre`, the song right before `c`; when `c` is the first song it
returns the playlist's last song if the loop flag is set and `c` itself (not
`nullptr`) otherwise.  In particular on `[a, b, c]` with the loop flag off and
current song `a` it returns `a`. -/
theorem getPreviousSong_sequential :
    (∀ (st : State) (u : User) (p : Nat) (pl : Playlist) (pre post : List Nat) (c : Nat),
      u.currentPlaylist = some p → st.playlistAt p = some pl →
      u.playbackMode = PlaybackMode.SEQUENTIAL → u.currentSong = some c →
      pl.songs = pre ++ c :: post → pl.songs.Nodup →
      User.getPreviousSong st u = some
        (match pre.getLast? with
         | some prv => some prv
         | none => if u.isLooping = true then pl.songs.getLast? else some c)) ∧
    (∀ (st : State) (u : User) (p : Nat) (pl : Playlist) (a b c : Nat),
      u.currentPlaylist = some p → st.playlistAt p = some pl →
      u.playbackMode = PlaybackMode.SEQUENTIAL → u.isLooping = false →
      u.currentSong = some a → pl.songs = [a, b, c] → pl.songs.Nodup →
      User.getPreviousSong st u = some (some a)) := by
  have gen : ∀ (st : State) (u : User) (p : Nat) (pl : Playlist) (pre post : List Nat) (c : Nat),
      u.currentPlaylist = some p → st.playlistAt p = some pl →
      u.playbackMode = PlaybackMode.SEQUENTIAL → u.currentSong = some c →
      pl.songs = pre ++ c :: post → pl.songs.Nodup →
      User.getPreviousSong st u = some
        (match pre.getLast? with
         | some prv => some prv
         | none => if u.isLooping = true then pl.songs.getLast? else some c) := by
    intro st u p pl pre post c hcp hpl hmode hcs hsongs hnd
    have hc : c ∉ pre := by
      rw [hsongs] at hnd
      have := (List.nodup_append.mp hnd).2.2
      intro hmem
      exact (List.disjoint_left.mp this hmem) (List.mem_cons_self _ _)
    have hfind : find pl.songs (some c) = pre.length := by
      rw [hsongs]; exact find_append_cons pre post c hc
    have hne : pl.songs ≠ [] := by rw [hsongs]; simp
    have hlen : ¬ pre.length = pl.songs.length := by
      rw [hsongs]; simp only [List.length_append, List.length_cons]; omega
    simp only [User.getPreviousSong, hcp, hpl, hne, if_false, hcs, hfind, hmode, hlen, if_true]
    rcases List.eq_nil_or_concat pre with hpre | ⟨pre', prv, hpre⟩
    · subst hpre
      cases hl : pl.songs.getLast? with
      | none => exact absurd (List.getLast?_eq_none_iff.mp hl) hne
      | some a => cases u.isLooping <;> simp
    · rw [List.concat_eq_append] at hpre
      subst hpre
      have h0 : (pre' ++ [prv]).length ≠ 0 := by simp
      have hs : pl.songs = pre' ++ prv :: c :: post := by rw [hsongs]; simp
      simp only [h0, ne_eq, not_false_eq_true, if_true, hs, getElem?_before,
        Option.map_some', List.getLast?_append, List.getLast?_singleton, Option.or_some]
  refine ⟨gen, ?_⟩
  intro st u p pl a b c hcp hpl hmode hloop hcs hsongs hnd
  have := gen st u p pl [] [b, c] a hcp hpl hmode hcs (by simpa using hsongs) hnd
  simpa [hloop] using this

/-- Claim C7.  Whatever the loop flag, on a current playlist that contains the
current song `c`: in REPEAT mode `User::getNextSong` and
`User::getPreviousSong` both return `c`, and in every mode other than
SEQUENTIAL (RANDOM and REPEAT) `User::getPreviousSong` returns `c`, so only
SEQUENTIAL mode makes it move. -/
theorem repeat_and_previous_stay (st : State) (u : User) (p : Nat) (pl : Playlist) (c : Nat)
    (hcp : u.currentPlaylist = some p) (hpl : st.playlistAt p = some pl)
    (hcs : u.currentSong = some c) (hmem : c ∈ pl.songs) :
    (u.playbackMode = PlaybackMode.REPEAT →
      (∀ rand, User.getNextSong st u rand = some (some c)) ∧
      User.getPreviousSong st u = some (some c)) ∧
    (u.playbackMode = PlaybackMode.RANDOM → User.getPreviousSong st u = some (some c)) ∧
    (∀ r, User.getPreviousSong st u = some r → r ≠ some c →
      u.playbackMode = PlaybackMode.SEQUENTIAL) := by
  have hne : pl.songs ≠ [] := List.ne_nil_of_mem hmem
  have hfind := find_lt_of_mem pl.songs c hmem
  have hprev : u.playbackMode ≠ PlaybackMode.SEQUENTIAL →
      User.getPreviousSong st u = some (some c) := by
    intro hm
    simp only [User.getPreviousSong, hcp, hpl, hne, if_false, hcs, hfind, hm]
  refine ⟨?_, ?_, ?_⟩
  · intro hm
    refine ⟨?_, hprev (by rw [hm]; decide)⟩
    intro rand
    simp only [User.getNextSong, hcp, hpl, hne, if_false, hcs, hfind, hm]
  · intro hm
    exact hprev (by rw [hm]; decide)
  · intro r hr hrc
    by_contra hm
    rw [hprev hm] at hr
    exact hrc (Option.some.inj hr).symm

/-- Claim C8.  Whatever the playback mode and the loop flag, `User::getNextSong`
and `User::getPreviousSong` both return `nullptr` when `currentPlaylist` is
null, when it has no songs, and when `currentSong` (a null `currentSong`
included) is not on its song list.  In particular with current playlist
`[a, b]` and current song `b`, once `b` has been removed from the playlist by
`Playlist::removeSong` without updating the session, `User::getNextSong`
returns `nullptr`. -/
theorem navigation_null_cases :
    (∀ (st : State) (u : User) (rand : Nat), u.currentPlaylist = none →
      User.getNextSong st u rand = some none ∧ User.getPreviousSong st u = some none) ∧
    (∀ (st : State) (u : User) (p : Nat) (pl : Playlist) (rand : Nat),
      u.currentPlaylist = some p → st.playlistAt p = some pl → pl.songs = [] →
      User.getNextSong st u rand = some none ∧ User.getPreviousSong st u = some none) ∧
    (∀ (st : State) (u : User) (p : Nat) (pl : Playlist) (rand : Nat),
      u.currentPlaylist = some p → st.playlistAt p = some pl →
      (∀ c, u.currentSong = some c → c ∉ pl.songs) →
      User.getNextSong st u rand = some none ∧ User.getPreviousSong st u = some none) ∧
    (∀ (st : State) (u : User) (p : Nat) (pl : Playlist) (a b rand : Nat),
      u.currentPlaylist = some p → st.playlistAt p = some pl → pl.songs = [a, b] → a ≠ b →
      u.currentSong = some b →
      User.getNextSong
        { st with playlistAt := setAt st.playlistAt p (some (pl.removeSong b)) } u rand =
        some none) := by
  have stale : ∀ (st : State) (u : User) (p : Nat) (pl : Playlist) (rand : Nat),
      u.currentPlaylist = some p → st.playlistAt p = some pl →
      (∀ c, u.currentSong = some c → c ∉ pl.songs) →
      User.getNextSong st u rand = some none ∧ User.getPreviousSong st u = some none := by
    intro st u p pl rand hcp hpl hnot
    have hfind := find_not_mem pl.songs u.currentSong hnot
    constructor
    · simp only [User.getNextSong, hcp, hpl, hfind, if_true]
      split <;> rfl
    · simp only [User.getPreviousSong, hcp, hpl, hfind, if_true]
      split <;> rfl
  refine ⟨?_, ?_, stale, ?_⟩
  · intro st u rand hcp
    simp [User.getNextSong, User.getPreviousSong, hcp]
  · intro st u p pl rand hcp hpl hempty
    simp [User.getNextSong, User.getPreviousSong, hcp, hpl, hempty]
  · intro st u p pl a b rand hcp hpl hsongs hab hcs
    refine (stale _ u p (pl.removeSong b) rand hcp (setAt_same _ _ _) ?_).1
    intro c hc
    rw [hcs] at hc
    cases hc
    exact not_mem_eraseAll_self _ _

/-- Claim C9.  `User::setCurrentPlaylist(p)`, for `p` null or a live playlist,
sets `currentPlaylist` to `p` and `currentSong` to `p`'s first song when `p`
is not null and has songs, and to null otherwise; playback mode and loop flag
are unchanged.  Hence right after the call a non-null `currentSong` is on the
song list of `currentPlaylist`. -/
theorem setCurrentPlaylist_spec (st : State) (u : User) (playlist : Option Nat)
    (hlive : ∀ p, playlist = some p → (st.playlistAt p).isSome = true) :
    ∃ u', User.setCurrentPlaylist st u playlist = some u' ∧
      u'.currentPlaylist = playlist ∧
      u'.currentSong = (playlist.bind st.playlistAt).bind (fun pl => pl.songs.head?) ∧
      u'.playbackMode = u.playbackMode ∧ u'.isLooping = u.isLooping ∧
      (∀ s, u'.currentSong = some s →
        ∃ p pl, u'.currentPlaylist = some p ∧ st.playlistAt p = some pl ∧ s ∈ pl.songs) := by
  cases playlist with
  | none => exact ⟨_, rfl, rfl, rfl, rfl, rfl, by simp⟩
  | some p =>
    obtain ⟨pl, hpl⟩ := Option.isSome_iff_exists.mp (hlive p rfl)
    cases hs : pl.songs with
    | nil =>
      refine ⟨{ u with currentPlaylist := some p, currentSong := none }, ?_, rfl, ?_, rfl, rfl,
        by simp⟩
      · simp [User.setCurrentPlaylist, hpl, hs]
      · simp [hpl, hs]
    | cons x xs =>
      refine ⟨{ u with currentPlaylist := some p, currentSong := some x }, ?_, rfl, ?_, rfl, rfl,
        ?_⟩
      · simp [User.setCurrentPlaylist, hpl, hs]
      · simp [hpl, hs]
      · intro s hsx
        simp only [Option.some.injEq] at hsx
        exact ⟨p, pl, rfl, hpl, by rw [hs, ← hsx]; exact List.mem_cons_self _ _⟩

/-! ## Membership lists -/

theorem pushUnique_of_mem (v : List Nat) (p : Nat) (h : p ∈ v) : pushUnique v p = v := by
  simp [pushUnique, find_lt_of_mem v p h]

theorem pushUnique_of_not_mem (v : List Nat) (p : Nat) (h : p ∉ v) :
    pushUnique v p = v ++ [p] := by
  simp [pushUnique, (find_eq_length_iff v p).mpr h]

theorem pushUnique_nodup (v : List Nat) (p : Nat) (h : v.Nodup) : (pushUnique v p).Nodup := by
  by_cases hp : p ∈ v
  · rw [pushUnique_of_mem v p hp]; exact h
  · rw [pushUnique_of_not_mem v p hp]
    exact List.nodup_append.mpr ⟨h, List.nodup_singleton p, by simpa using hp⟩

theorem pushUnique_extends (v : List Nat) (p : Nat) : v <+: pushUnique v p := by
  by_cases hp : p ∈ v
  · rw [pushUnique_of_mem v p hp]
  · rw [pushUnique_of_not_mem v p hp]; exact List.prefix_append _ _

theorem mem_pushUnique_self (v : List Nat) (p : Nat) : p ∈ pushUnique v p := by
  by_cases hp : p ∈ v
  · rw [pushUnique_of_mem v p hp]; exact hp
  · rw [pushUnique_of_not_mem v p hp]; simp

theorem eraseAll_sublist (v : List Nat) (p : Nat) : (eraseAll v p).Sublist v :=
  List.filter_sublist v

theorem foldl_pushUnique (xs acc : List Nat) :
    xs.foldl pushUnique acc = acc ++ (firstAdditions xs).filter (fun y => decide (y ∉ acc)) := by
  induction xs generalizing acc with
  | nil => simp [firstAdditions]
  | cons x xs ih =>
    simp only [List.foldl_cons, firstAdditions]
    rw [ih]
    by_cases hx : x ∈ acc
    · rw [pushUnique_of_mem acc x hx]
      simp only [List.filter_cons, hx, not_true_eq_false, decide_False, List.filter_filter]
      congr 1
      apply List.filter_congr
      intro y _
      by_cases hy : y ∈ acc
      · simp [hy]
      · have : y ≠ x := fun h => hy (h ▸ hx)
        simp [hy, this]
    · rw [pushUnique_of_not_mem acc x hx]
      simp only [List.filter_cons, hx, not_false_eq_true, decide_True, if_true,
        List.filter_filter, List.append_assoc, List.singleton_append]
      congr 2
      apply List.filter_congr
      intro y _
      by_cases hy : y ∈ acc <;> by_cases hyx : y = x <;> simp [hy, hyx]

theorem foldl_pushUnique_nil (xs : List Nat) : xs.foldl pushUnique [] = firstAdditions xs := by
  rw [foldl_pushUnique]; simp

theorem playlist_addSong_songs (pl : Playlist) (s : Nat) :
    (pl.addSong s).songs = pushUnique pl.songs s := by
  unfold Playlist.addSong pushUnique
  split <;> rfl

theorem artist_addSong_songs (ar : Artist) (s : Nat) :
    (ar.addSong s).songs = pushUnique ar.songs s ∧ (ar.addSong s).albums = ar.albums := by
  unfold Artist.addSong pushUnique
  split <;> exact ⟨rfl, rfl⟩

theorem artist_addAlbum_albums (ar : Artist) (p : Nat) :
    (ar.addAlbum p).albums = pushUnique ar.albums p ∧ (ar.addAlbum p).songs = ar.songs := by
  unfold Artist.addAlbum pushUnique
  split <;> exact ⟨rfl, rfl⟩

theorem user_addFavoriteSong_lists (u : User) (s : Nat) :
    (u.addFavoriteSong s).favoriteSongs = pushUnique u.favoriteSongs s ∧
    (u.addFavoriteSong s).favoritePlaylists = u.favoritePlaylists := by
  unfold User.addFavoriteSong pushUnique
  split <;> exact ⟨rfl, rfl⟩

theorem user_addFavoritePlaylist_lists (u : User) (p : Nat) :
    (u.addFavoritePlaylist p).favoritePlaylists = pushUnique u.favoritePlaylists p ∧
    (u.addFavoritePlaylist p).favoriteSongs = u.favoriteSongs := by
  unfold User.addFavoritePlaylist pushUnique
  split <;> exact ⟨rfl, rfl⟩

theorem playlistOp_run_nodup (ops : List PlaylistOp) (pl : Playlist) (h : pl.songs.Nodup) :
    (ops.foldl PlaylistOp.run pl).songs.Nodup := by
  induction ops generalizing pl with
  | nil => exact h
  | cons op ops ih =>
    apply ih
    cases op with
    | addSong s => simp only [PlaylistOp.run, playlist_addSong_songs]; exact pushUnique_nodup _ _ h
    | removeSong s => exact eraseAll_nodup _ _ h

theorem artistOp_run_nodup (ops : List ArtistOp) (ar : Artist)
    (h : ar.songs.Nodup ∧ ar.albums.Nodup) :
    (ops.foldl ArtistOp.run ar).songs.Nodup ∧ (ops.foldl ArtistOp.run ar).albums.Nodup := by
  induction ops generalizing ar with
  | nil => exact h
  | cons op ops ih =>
    apply ih
    cases op with
    | addSong s =>
      simp only [ArtistOp.run, (artist_addSong_songs ar s).1, (artist_addSong_songs ar s).2]
      exact ⟨pushUnique_nodup _ _ h.1, h.2⟩
    | addAlbum p =>
      simp only [ArtistOp.run, (artist_addAlbum_albums ar p).1, (artist_addAlbum_albums ar p).2]
      exact ⟨h.1, pushUnique_nodup _ _ h.2⟩

theorem userOp_run_nodup (ops : List UserOp) (u : User)
    (h : u.favoriteSongs.Nodup ∧ u.favoritePlaylists.Nodup) :
    (ops.foldl UserOp.run u).favoriteSongs.Nodup ∧
    (ops.foldl UserOp.run u).favoritePlaylists.Nodup := by
  induction ops generalizing u with
  | nil => exact h
  | cons op ops ih =>
    apply ih
    cases op with
    | addFavoriteSong s =>
      simp only [UserOp.run, (user_addFavoriteSong_lists u s).1,
        (user_addFavoriteSong_lists u s).2]
      exact ⟨pushUnique_nodup _ _ h.1, h.2⟩
    | removeFavoriteSong s => exact ⟨eraseAll_nodup _ _ h.1, h.2⟩
    | addFavoritePlaylist p =>
      simp only [UserOp.run, (user_addFavoritePlaylist_lists u p).1,
        (user_addFavoritePlaylist_lists u p).2]
      exact ⟨h.1, pushUnique_nodup _ _ h.2⟩
    | removeFavoritePlaylist p => exact ⟨h.1, eraseAll_nodup _ _ h.2⟩

theorem playlist_foldl_addSong (xs : List Nat) (pl : Playlist) :
    (xs.foldl Playlist.addSong pl).songs = xs.foldl pushUnique pl.songs := by
  induction xs generalizing pl with
  | nil => rfl
  | cons x xs ih => simp only [List.foldl_cons, ih, playlist_addSong_songs]

theorem artist_foldl_addSong (xs : List Nat) (ar : Artist) :
    (xs.foldl Artist.addSong ar).songs = xs.foldl pushUnique ar.songs := by
  induction xs generalizing ar with
  | nil => rfl
  | cons x xs ih => simp only [List.foldl_cons, ih, (artist_addSong_songs ar x).1]

theorem artist_foldl_addAlbum (xs : List Nat) (ar : Artist) :
    (xs.foldl Artist.addAlbum ar).albums = xs.foldl pushUnique ar.albums := by
  induction xs generalizing ar with
  | nil => rfl
  | cons x xs ih => simp only [List.foldl_cons, ih, (artist_addAlbum_albums ar x).1]

theorem user_foldl_addFavoriteSong (xs : List Nat) (u : User) :
    (xs.foldl User.addFavoriteSong u).favoriteSongs = xs.foldl pushUnique u.favoriteSongs := by
  induction xs generalizing u with
  | nil => rfl
  | cons x xs ih => simp only [List.foldl_cons, ih, (user_addFavoriteSong_lists u x).1]

theorem user_foldl_addFavoritePlaylist (xs : List Nat) (u : User) :
    (xs.foldl User.addFavoritePlaylist u).favoritePlaylists =
      xs.foldl pushUnique u.favoritePlaylists := by
  induction xs generalizing u with
  | nil => rfl
  | cons x xs ih => simp only [List.foldl_cons, ih, (user_addFavoritePlaylist_lists u x).1]

/-- Claim C10.  Membership lists never hold an entity twice.  (1) On a playlist
built from the constructor by any calls of `addSong`/`removeSong`, adding a
song twice leaves exactly one occurrence of it.  (2) Every list built from
empty by any sequence of the add/remove operations of `Playlist`, `Artist` and
`User` is duplicate-free.  (3) A sequence of additions alone builds the list
of the distinct additions in the order of their first occurrence.  (4) Each
addition leaves the former list as a prefix of the new one, and each removal
leaves a sublist, so the entries that stay keep their order. -/
theorem membership_lists_unique :
    (∀ (n : String) (cr : Nat) (pub : Bool) (ops : List PlaylistOp) (s : Nat),
      (((ops.foldl PlaylistOp.run
          { name := n, songs := [], creator := cr, isPublic := pub }).addSong s).addSong
        s).songs.count s = 1) ∧
    ((∀ (n : String) (cr : Nat) (pub : Bool) (ops : List PlaylistOp),
        (ops.foldl PlaylistOp.run
          { name := n, songs := [], creator := cr, isPublic := pub }).songs.Nodup) ∧
      (∀ (n : String) (ops : List ArtistOp),
        (ops.foldl ArtistOp.run { name := n, songs := [], albums := [] }).songs.Nodup ∧
        (ops.foldl ArtistOp.run { name := n, songs := [], albums := [] }).albums.Nodup) ∧
      (∀ (u : User) (ops : List UserOp), u.favoriteSongs = [] → u.favoritePlaylists = [] →
        (ops.foldl UserOp.run u).favoriteSongs.Nodup ∧
        (ops.foldl UserOp.run u).favoritePlaylists.Nodup)) ∧
    ((∀ (n : String) (cr : Nat) (pub : Bool) (xs : List Nat),
        (xs.foldl Playlist.addSong
          { name := n, songs := [], creator := cr, isPublic := pub }).songs =
          firstAdditions xs) ∧
      (∀ (n : String) (xs : List Nat),
        (xs.foldl Artist.addSong { name := n, songs := [], albums := [] }).songs =
          firstAdditions xs ∧
        (xs.foldl Artist.addAlbum { name := n, songs := [], albums := [] }).albums =
          firstAdditions xs) ∧
      (∀ (u : User) (xs : List Nat), u.favoriteSongs = [] → u.favoritePlaylists = [] →
        (xs.foldl User.addFavoriteSong u).favoriteSongs = firstAdditions xs ∧
        (xs.foldl User.addFavoritePlaylist u).favoritePlaylists = firstAdditions xs)) ∧
    ((∀ (pl : Playlist) (s : Nat),
        pl.songs <+: (pl.addSong s).songs ∧ (pl.removeSong s).songs.Sublist pl.songs) ∧
      (∀ (ar : Artist) (x : Nat),
        ar.songs <+: (ar.addSong x).songs ∧ ar.albums <+: (ar.addAlbum x).albums) ∧
      (∀ (u : User) (x : Nat),
        u.favoriteSongs <+: (u.addFavoriteSong x).favoriteSongs ∧
        (u.removeFavoriteSong x).favoriteSongs.Sublist u.favoriteSongs ∧
        u.favoritePlaylists <+: (u.addFavoritePlaylist x).favoritePlaylists ∧
        (u.removeFavoritePlaylist x).favoritePlaylists.Sublist u.favoritePlaylists)) := by
  refine ⟨?_, ⟨?_, ?_, ?_⟩, ⟨?_, ?_, ?_⟩, ⟨?_, ?_, ?_⟩⟩
  · intro n cr pub ops s
    have hnd := playlistOp_run_nodup ops
      { name := n, songs := [], creator := cr, isPublic := pub } List.nodup_nil
    rw [playlist_addSong_songs, playlist_addSong_songs,
      pushUnique_of_mem _ _ (mem_pushUnique_self _ _)]
    exact List.count_eq_one_of_mem (pushUnique_nodup _ _ hnd) (mem_pushUnique_self _ _)
  · intro n cr pub ops
    exact playlistOp_run_nodup ops _ List.nodup_nil
  · intro n ops
    exact artistOp_run_nodup ops _ ⟨List.nodup_nil, List.nodup_nil⟩
  · intro u ops h1 h2
    exact userOp_run_nodup ops u ⟨by rw [h1]; exact List.nodup_nil, by rw [h2]; exact List.nodup_nil⟩
  · intro n cr pub xs
    rw [playlist_foldl_addSong, foldl_pushUnique_nil]
  · intro n xs
    rw [artist_foldl_addSong, artist_foldl_addAlbum, foldl_pushUnique_nil]
    exact ⟨rfl, rfl⟩
  · intro u xs h1 h2
    rw [user_foldl_addFavoriteSong, user_foldl_addFavoritePlaylist, h1, h2, foldl_pushUnique_nil]
    exact ⟨rfl, rfl⟩
  · intro pl s
    rw [playlist_addSong_songs]
    exact ⟨pushUnique_extends _ _, eraseAll_sublist _ _⟩
  · intro ar x
    rw [(artist_addSong_songs ar x).1, (artist_addAlbum_albums ar x).1]
    exact ⟨pushUnique_extends _ _, pushUnique_extends _ _⟩
  · intro u x
    rw [(user_addFavoriteSong_lists u x).1, (user_addFavoritePlaylist_lists u x).1]
    exact ⟨pushUnique_extends _ _, eraseAll_sublist _ _, pushUnique_extends _ _,
      eraseAll_sublist _ _⟩

/-! ## Preservation of I1 and I2 -/

theorem ownerOf_eq_some (st : State) (s a : Nat) :
    st.ownerOf s = some a ↔ ∃ sg, st.songAt s = some sg ∧ sg.artist = a := by
  simp [State.ownerOf]

theorem songsOf_eq_some (st : State) (a : Nat) (l : List Nat) :
    st.songsOf a = some l ↔ ∃ ar, st.artistAt a = some ar ∧ ar.songs = l := by
  simp [State.songsOf]

/-- A catalog artist is live, so an address that is not live is not in `allArtists`. -/
theorem ne_of_artist_free (st : State) (hv : st.Valid) (f : Nat) (hf : st.artistAt f = none) :
    ∀ a ∈ st.allArtists, a ≠ f := by
  intro a ha hEq
  obtain ⟨ar, har, -⟩ := (artistOk_iff st a).mp (hv.2.1 a ha)
  rw [hEq, hf] at har
  cases har

/-- The function `Admin::createArtist`, at a fresh address, keeps validity, I1 and I2. -/
theorem createArtist_preserves (st : State) (f : Nat) (name : String)
    (hv : st.Valid) (h1 : st.I1) (h2 : st.I2) (hf : st.artistAt f = none) :
    (Admin.createArtist st f name).Valid ∧ (Admin.createArtist st f name).I1 ∧
      (Admin.createArtist st f name).I2 := by
  have hne := ne_of_artist_free st hv f hf
  obtain ⟨hsongs, harts, hpl, hus⟩ := hv
  obtain ⟨h2a, h2b⟩ := h2
  have hart : ∀ a, a ≠ f → (Admin.createArtist st f name).artistAt a = st.artistAt a :=
    fun a ha => setAt_other _ _ _ _ ha
  have hartf : (Admin.createArtist st f name).artistAt f =
      some { name := name, songs := [], albums := [] } := setAt_same _ _ _
  have hmono : ∀ s, st.songOk s → (Admin.createArtist st f name).songOk s := by
    intro s hs
    obtain ⟨sg, ar, hsg, har⟩ := (songOk_iff st s).mp hs
    rw [songOk_iff]
    have hsf : sg.artist ≠ f := fun h => by rw [h, hf] at har; cases har
    exact ⟨sg, ar, hsg, by rw [hart _ hsf]; exact har⟩
  have hmem : ∀ a, a ∈ (Admin.createArtist st f name).allArtists ↔ a ∈ st.allArtists ∨ a = f := by
    intro a
    simp [Admin.createArtist]
  refine ⟨⟨fun s hs => hmono s (hsongs s hs), ?_, hpl, hus⟩, ?_, ?_, ?_⟩
  · intro a ha
    rw [artistOk_iff]
    rcases (hmem a).mp ha with ha | ha
    · obtain ⟨ar, har, hnd, hok⟩ := (artistOk_iff st a).mp (harts a ha)
      exact ⟨ar, by rw [hart _ (hne a ha)]; exact har, hnd, fun s hs => hmono s (hok s hs)⟩
    · subst ha
      exact ⟨_, hartf, List.nodup_nil, by simp⟩
  · intro s hs
    obtain ⟨a, ha, hown⟩ := h1 s hs
    exact ⟨a, (hmem a).mpr (Or.inl ha), hown⟩
  · intro a ha
    rcases (hmem a).mp ha with ha | ha
    · obtain ⟨l, hl, hin⟩ := h2a a ha
      refine ⟨l, ?_, hin⟩
      simp only [State.songsOf] at hl ⊢
      rw [hart _ (hne a ha)]; exact hl
    · subst ha
      refine ⟨[], ?_, by simp⟩
      simp only [State.songsOf, hartf, Option.map_some']
  · intro s hs a ha hown
    have hsa : s ∈ st.allSongs := hs
    obtain ⟨a', ha', hown'⟩ := h1 s hsa
    have hEq : a = a' := by
      have h : st.ownerOf s = some a := hown
      rw [hown'] at h
      exact (Option.some.inj h).symm
    subst hEq
    obtain ⟨l, hl, hin⟩ := h2b s hsa a ha' hown
    refine ⟨l, ?_, hin⟩
    simp only [State.songsOf] at hl ⊢
    rw [hart _ (hne a ha')]; exact hl

/-- The state after `Admin::createAlbum`, when the artist pointer is live. -/
theorem createAlbum_eq (st : State) (self f artist : Nat) (name : String) (ar : Artist)
    (har : st.artistAt artist = some ar) :
    Admin.createAlbum st self f artist name = some { st with
      playlistAt := setAt st.playlistAt f
        (some { name := name, songs := [], creator := self, isPublic := true })
      allPlaylists := st.allPlaylists ++ [f]
      artistAt := setAt st.artistAt artist (some (ar.addAlbum f)) } := by
  simp only [Admin.createAlbum, har]

/-- The state after `Admin::addSong`, when the artist pointer is live. -/
theorem addSong_eq (st : State) (f : Nat) (title : String) (artist : Nat) (year : Int)
    (genre : String) (ar : Artist) (har : st.artistAt artist = some ar) :
    Admin.addSong st f title artist year genre = some { st with
      songAt := setAt st.songAt f
        (some { title := title, artist := artist, releaseYear := year, genre := genre })
      allSongs := st.allSongs ++ [f]
      artistAt := setAt st.artistAt artist (some (ar.addSong f)) } := by
  simp only [Admin.addSong, har]

/-- The function `Admin::createAlbum` with a live artist completes and keeps validity, I1
and I2. -/
theorem createAlbum_preserves (st : State) (self f artist : Nat) (name : String)
    (hv : st.Valid) (h1 : st.I1) (h2 : st.I2) (hlive : (st.artistAt artist).isSome = true) :
    ∃ st', Admin.createAlbum st self f artist name = some st' ∧
      st'.Valid ∧ st'.I1 ∧ st'.I2 := by
  obtain ⟨ar, har⟩ := Option.isSome_iff_exists.mp hlive
  obtain ⟨hsongs, harts, hpl, hus⟩ := hv
  obtain ⟨h2a, h2b⟩ := h2
  refine ⟨_, createAlbum_eq st self f artist name ar har, ?_⟩
  -- the song vectors of all artists are as before
  have hso : ∀ a, (setAt st.artistAt artist (some (ar.addAlbum f)) a).map Artist.songs =
      (st.artistAt a).map Artist.songs := by
    intro a
    by_cases ha : a = artist
    · subst ha
      simp only [setAt_same, har, Option.map_some']
      unfold Artist.addAlbum
      split <;> rfl
    · rw [setAt_other _ _ _ _ ha]
  have hso' : ∀ a l, (∃ ar0, setAt st.artistAt artist (some (ar.addAlbum f)) a = some ar0 ∧
      ar0.songs = l) ↔ ∃ ar0, st.artistAt a = some ar0 ∧ ar0.songs = l := by
    intro a l
    have := hso a
    constructor
    · rintro ⟨ar0, h, hl⟩
      rw [h] at this
      cases h0 : st.artistAt a with
      | none => rw [h0] at this; cases this
      | some ar1 =>
        rw [h0] at this
        simp only [Option.map_some', Option.some.injEq] at this
        exact ⟨ar1, rfl, by rw [← this]; exact hl⟩
    · rintro ⟨ar0, h, hl⟩
      rw [h] at this
      cases h0 : setAt st.artistAt artist (some (ar.addAlbum f)) a with
      | none => rw [h0] at this; cases this
      | some ar1 =>
        rw [h0] at this
        simp only [Option.map_some', Option.some.injEq] at this
        exact ⟨ar1, rfl, by rw [this]; exact hl⟩
  have hmono : ∀ s, st.songOk s → State.songOk
      { st with
        playlistAt := setAt st.playlistAt f
          (some { name := name, songs := [], creator := self, isPublic := true })
        allPlaylists := st.allPlaylists ++ [f]
        artistAt := setAt st.artistAt artist (some (ar.addAlbum f)) } s := by
    intro s hs
    obtain ⟨sg, ar0, hsg, har0⟩ := (songOk_iff st s).mp hs
    rw [songOk_iff]
    obtain ⟨ar1, h1', -⟩ := (hso' sg.artist ar0.songs).mpr ⟨ar0, har0, rfl⟩
    exact ⟨sg, ar1, hsg, h1'⟩
  refine ⟨⟨fun s hs => hmono s (hsongs s hs), ?_, ?_, hus⟩, h1, ?_, ?_⟩
  · intro a ha
    rw [artistOk_iff]
    obtain ⟨ar0, har0, hnd, hok⟩ := (artistOk_iff st a).mp (harts a ha)
    obtain ⟨ar1, h1', hl⟩ := (hso' a ar0.songs).mpr ⟨ar0, har0, rfl⟩
    exact ⟨ar1, h1', by rw [hl]; exact hnd, fun s hs => hmono s (hok s (by rw [← hl]; exact hs))⟩
  · intro p hp
    have hp' : p ∈ st.allPlaylists ++ [f] := hp
    simp only [List.mem_append, List.mem_singleton] at hp'
    by_cases hpf : p = f
    · subst hpf
      show (setAt st.playlistAt p _ p).isSome = true
      simp
    · show (setAt st.playlistAt f _ p).isSome = true
      rw [setAt_other _ _ _ _ hpf]
      rcases hp' with h | h
      · exact hpl p h
      · exact absurd h hpf
  · intro a ha
    obtain ⟨l, hl, hin⟩ := h2a a ha
    refine ⟨l, ?_, hin⟩
    rw [songsOf_eq_some] at hl ⊢
    exact (hso' a l).mpr hl
  · intro s hs a ha hown
    obtain ⟨l, hl, hin⟩ := h2b s hs a ha hown
    refine ⟨l, ?_, hin⟩
    rw [songsOf_eq_some] at hl ⊢
    exact (hso' a l).mpr hl

/-- A live song is not at an address that is not live. -/
theorem ne_of_song_free (st : State) (f : Nat) (hf : st.songAt f = none) :
    ∀ s, st.songOk s → s ≠ f := by
  intro s hs hEq
  obtain ⟨sg, ar, hsg, -⟩ := (songOk_iff st s).mp hs
  rw [hEq, hf] at hsg
  cases hsg

/-- The function `Admin::addSong` with an artist of the catalog and a fresh address
completes and keeps validity, I1 and I2. -/
theorem addSong_preserves (st : State) (f : Nat) (title : String) (artist : Nat) (year : Int)
    (genre : String) (hv : st.Valid) (h1 : st.I1) (h2 : st.I2)
    (hf : st.songAt f = none) (hart : artist ∈ st.allArtists) :
    ∃ st', Admin.addSong st f title artist year genre = some st' ∧
      st'.Valid ∧ st'.I1 ∧ st'.I2 := by
  have hfree := ne_of_song_free st f hf
  obtain ⟨hsongs, harts, hpl, hus⟩ := hv
  obtain ⟨h2a, h2b⟩ := h2
  obtain ⟨ar, har, hnd, hok⟩ := (artistOk_iff st artist).mp (harts artist hart)
  have hfar : f ∉ ar.songs := fun h => hfree f (hok f h) rfl
  have hadd : ar.addSong f = { ar with songs := ar.songs ++ [f] } := by
    simp [Artist.addSong, (find_eq_length_iff ar.songs f).mpr hfar]
  refine ⟨_, addSong_eq st f title artist year genre ar har, ?_⟩
  rw [hadd]
  generalize hst' : ({ st with
      songAt := setAt st.songAt f
        (some { title := title, artist := artist, releaseYear := year, genre := genre })
      allSongs := st.allSongs ++ [f]
      artistAt := setAt st.artistAt artist (some { ar with songs := ar.songs ++ [f] }) } :
      State) = st'
  have eS : st'.songAt = setAt st.songAt f
      (some { title := title, artist := artist, releaseYear := year, genre := genre }) := by
    rw [← hst']
  have eA : st'.artistAt = setAt st.artistAt artist
      (some { ar with songs := ar.songs ++ [f] }) := by rw [← hst']
  have eAll : st'.allSongs = st.allSongs ++ [f] := by rw [← hst']
  have eArts : st'.allArtists = st.allArtists := by rw [← hst']
  have ePl : st'.allPlaylists = st.allPlaylists ∧ st'.playlistAt = st.playlistAt := by
    rw [← hst']; exact ⟨rfl, rfl⟩
  have eUs : st'.allUsers = st.allUsers ∧ st'.userAt = st.userAt := by
    rw [← hst']; exact ⟨rfl, rfl⟩
  -- owners
  have hownf : st'.ownerOf f = some artist := by simp [State.ownerOf, eS]
  have hown : ∀ s, s ≠ f → st'.ownerOf s = st.ownerOf s := by
    intro s hs; simp only [State.ownerOf, eS, setAt_other _ _ _ _ hs]
  -- song vectors
  have hsoA : st'.songsOf artist = some (ar.songs ++ [f]) := by simp [State.songsOf, eA]
  have hso : ∀ a, a ≠ artist → st'.songsOf a = st.songsOf a := by
    intro a ha; simp only [State.songsOf, eA, setAt_other _ _ _ _ ha]
  have hsoOld : st.songsOf artist = some ar.songs := by simp [State.songsOf, har]
  have hsub : ∀ a l, st.songsOf a = some l → ∃ l', st'.songsOf a = some l' ∧ ∀ s ∈ l, s ∈ l' := by
    intro a l hl
    by_cases ha : a = artist
    · subst ha
      rw [hsoOld] at hl
      cases hl
      exact ⟨_, hsoA, fun s hs => List.mem_append_left _ hs⟩
    · exact ⟨l, by rw [hso a ha]; exact hl, fun s hs => hs⟩
  have hlive : ∀ a, (st.artistAt a).isSome = true → (st'.artistAt a).isSome = true := by
    intro a ha
    by_cases h : a = artist
    · simp [eA, h]
    · rw [eA, setAt_other _ _ _ _ h]; exact ha
  have hmono : ∀ s, st.songOk s → st'.songOk s := by
    intro s hs
    have hsf := hfree s hs
    obtain ⟨sg, ar0, hsg, har0⟩ := (songOk_iff st s).mp hs
    rw [songOk_iff]
    obtain ⟨ar1, har1⟩ := Option.isSome_iff_exists.mp (hlive sg.artist (by simp [har0]))
    exact ⟨sg, ar1, by rw [eS, setAt_other _ _ _ _ hsf]; exact hsg, har1⟩
  have hokf : st'.songOk f := by
    rw [songOk_iff]
    exact ⟨_, _, by rw [eS]; exact setAt_same _ _ _, by rw [eA]; exact setAt_same _ _ _⟩
  have hmemS : ∀ s, s ∈ st'.allSongs ↔ s ∈ st.allSongs ∨ s = f := by
    intro s; simp [eAll]
  refine ⟨⟨?_, ?_, ?_, ?_⟩, ?_, ?_, ?_⟩
  · intro s hs
    rcases (hmemS s).mp hs with h | h
    · exact hmono s (hsongs s h)
    · rw [h]; exact hokf
  · intro a ha
    rw [eArts] at ha
    rw [artistOk_iff]
    by_cases h : a = artist
    · subst h
      refine ⟨_, by rw [eA]; exact setAt_same _ _ _, ?_, ?_⟩
      · exact List.nodup_append.mpr ⟨hnd, List.nodup_singleton f, by simpa using hfar⟩
      · intro s hs
        simp only [List.mem_append, List.mem_singleton] at hs
        rcases hs with hs | hs
        · exact hmono s (hok s hs)
        · rw [hs]; exact hokf
    · obtain ⟨ar0, har0, hnd0, hok0⟩ := (artistOk_iff st a).mp (harts a ha)
      exact ⟨ar0, by rw [eA, setAt_other _ _ _ _ h]; exact har0, hnd0,
        fun s hs => hmono s (hok0 s hs)⟩
  · intro p hp
    rw [ePl.1] at hp
    rw [ePl.2]; exact hpl p hp
  · intro u hu
    rw [eUs.1] at hu
    rw [eUs.2]; exact hus u hu
  · intro s hs
    rw [eArts]
    rcases (hmemS s).mp hs with h | h
    · obtain ⟨a, ha, hsa⟩ := h1 s h
      exact ⟨a, ha, by rw [hown s (hfree s (hsongs s h))]; exact hsa⟩
    · exact ⟨artist, hart, by rw [h]; exact hownf⟩
  · intro a ha
    rw [eArts] at ha
    obtain ⟨l, hl, hin⟩ := h2a a ha
    have hold : ∀ s ∈ l, s ∈ st'.allSongs ∧ st'.ownerOf s = some a := by
      intro s hs
      obtain ⟨hsall, hsown⟩ := hin s hs
      exact ⟨(hmemS s).mpr (Or.inl hsall), by
        rw [hown s (hfree s (hsongs s hsall))]; exact hsown⟩
    by_cases h : a = artist
    · subst h
      rw [hsoOld] at hl
      cases hl
      refine ⟨_, hsoA, ?_⟩
      intro s hs
      simp only [List.mem_append, List.mem_singleton] at hs
      rcases hs with hs | hs
      · exact hold s hs
      · rw [hs]; exact ⟨(hmemS f).mpr (Or.inr rfl), hownf⟩
    · exact ⟨l, by rw [hso a h]; exact hl, hold⟩
  · intro s hs a ha hsa
    rw [eArts] at ha
    rcases (hmemS s).mp hs with h | h
    · rw [hown s (hfree s (hsongs s h))] at hsa
      obtain ⟨l, hl, hin⟩ := h2b s h a ha hsa
      obtain ⟨l', hl', hsub'⟩ := hsub a l hl
      exact ⟨l', hl', hsub' s hin⟩
    · subst h
      rw [hownf] at hsa
      cases hsa
      exact ⟨_, hsoA, by simp⟩

/-- The function `Admin::removeSong` on a song of the catalog completes and keeps validity,
I1 and I2. -/
theorem removeSong_preserves (st : State) (S : Nat) (hv : st.Valid) (h1 : st.I1) (h2 : st.I2)
    (hS : S ∈ st.allSongs) :
    ∃ st', Admin.removeSong st S = some st' ∧ st'.Valid ∧ st'.I1 ∧ st'.I2 := by
  obtain ⟨hsongs, harts, hpl, hus⟩ := hv
  obtain ⟨h2a, h2b⟩ := h2
  obtain ⟨sg, ar, hsg, har⟩ := (songOk_iff st S).mp (hsongs S hS)
  refine ⟨_, removeSong_eq st S sg ar hsg har hpl hus, ?_⟩
  generalize hst' : ({ st with
      songAt := setAt st.songAt S none
      artistAt := setAt st.artistAt sg.artist (some { ar with songs := eraseAll ar.songs S })
      playlistAt := fun q => if q ∈ st.allPlaylists
        then (st.playlistAt q).map (fun pl => pl.removeSong S) else st.playlistAt q
      userAt := fun q => if q ∈ st.allUsers
        then (st.userAt q).map (fun usr => usr.removeFavoriteSong S) else st.userAt q
      allSongs := eraseAll st.allSongs S } : State) = st'
  have eS : st'.songAt = setAt st.songAt S none := by rw [← hst']
  have eA : st'.artistAt = setAt st.artistAt sg.artist
      (some { ar with songs := eraseAll ar.songs S }) := by rw [← hst']
  have eAll : st'.allSongs = eraseAll st.allSongs S := by rw [← hst']
  have eArts : st'.allArtists = st.allArtists := by rw [← hst']
  have ePl : st'.allPlaylists = st.allPlaylists ∧ st'.playlistAt = fun q =>
      if q ∈ st.allPlaylists then (st.playlistAt q).map (fun pl => pl.removeSong S)
      else st.playlistAt q := by
    rw [← hst']; exact ⟨rfl, rfl⟩
  have eUs : st'.allUsers = st.allUsers ∧ st'.userAt = fun q =>
      if q ∈ st.allUsers then (st.userAt q).map (fun usr => usr.removeFavoriteSong S)
      else st.userAt q := by
    rw [← hst']; exact ⟨rfl, rfl⟩
  have hownS : st.ownerOf S = some sg.artist := by simp [State.ownerOf, hsg]
  have hown : ∀ s, s ≠ S → st'.ownerOf s = st.ownerOf s := by
    intro s hs; simp only [State.ownerOf, eS, setAt_other _ _ _ _ hs]
  have hsoA : st'.songsOf sg.artist = some (eraseAll ar.songs S) := by
    simp [State.songsOf, eA]
  have hsoOld : st.songsOf sg.artist = some ar.songs := by simp [State.songsOf, har]
  have hso : ∀ a, a ≠ sg.artist → st'.songsOf a = st.songsOf a := by
    intro a ha; simp only [State.songsOf, eA, setAt_other _ _ _ _ ha]
  -- no other catalog artist lists `S`
  have hK : ∀ a ∈ st.allArtists, a ≠ sg.artist → ∀ l, st.songsOf a = some l → S ∉ l := by
    intro a ha hne l hl hmem
    obtain ⟨l0, hl0, hin⟩ := h2a a ha
    rw [hl] at hl0
    cases hl0
    have := (hin S hmem).2
    rw [hownS] at this
    exact hne (Option.some.inj this).symm
  have hmemS : ∀ s, s ∈ st'.allSongs ↔ s ∈ st.allSongs ∧ s ≠ S := by
    intro s; rw [eAll]; exact mem_eraseAll _ _ _
  have hlive : ∀ a, (st.artistAt a).isSome = true → (st'.artistAt a).isSome = true := by
    intro a ha
    by_cases h : a = sg.artist
    · simp [eA, h]
    · rw [eA, setAt_other _ _ _ _ h]; exact ha
  have hmono : ∀ s, s ≠ S → st.songOk s → st'.songOk s := by
    intro s hsS hs
    obtain ⟨sg0, ar0, hsg0, har0⟩ := (songOk_iff st s).mp hs
    rw [songOk_iff]
    obtain ⟨ar1, har1⟩ := Option.isSome_iff_exists.mp (hlive sg0.artist (by simp [har0]))
    exact ⟨sg0, ar1, by rw [eS, setAt_other _ _ _ _ hsS]; exact hsg0, har1⟩
  refine ⟨⟨?_, ?_, ?_, ?_⟩, ?_, ?_, ?_⟩
  · intro s hs
    obtain ⟨hs1, hs2⟩ := (hmemS s).mp hs
    exact hmono s hs2 (hsongs s hs1)
  · intro a ha
    rw [eArts] at ha
    rw [artistOk_iff]
    obtain ⟨ar0, har0, hnd0, hok0⟩ := (artistOk_iff st a).mp (harts a ha)
    by_cases h : a = sg.artist
    · subst h
      rw [har] at har0
      cases har0
      refine ⟨_, by rw [eA]; exact setAt_same _ _ _, eraseAll_nodup _ _ hnd0, ?_⟩
      intro s hs
      obtain ⟨hs1, hs2⟩ := (mem_eraseAll _ _ _).mp hs
      exact hmono s hs2 (hok0 s hs1)
    · refine ⟨ar0, by rw [eA, setAt_other _ _ _ _ h]; exact har0, hnd0, ?_⟩
      intro s hs
      have hsS : s ≠ S := by
        intro hEq
        exact hK a ha h ar0.songs (by simp [State.songsOf, har0]) (hEq ▸ hs)
      exact hmono s hsS (hok0 s hs)
  · intro p hp
    rw [ePl.1] at hp
    obtain ⟨pl, hplp⟩ := Option.isSome_iff_exists.mp (hpl p hp)
    simp [ePl.2, hp, hplp]
  · intro u hu
    rw [eUs.1] at hu
    obtain ⟨usr, husr⟩ := Option.isSome_iff_exists.mp (hus u hu)
    simp [eUs.2, hu, husr]
  · intro s hs
    obtain ⟨hs1, hs2⟩ := (hmemS s).mp hs
    obtain ⟨a, ha, hsa⟩ := h1 s hs1
    exact ⟨a, by rw [eArts]; exact ha, by rw [hown s hs2]; exact hsa⟩
  · intro a ha
    rw [eArts] at ha
    obtain ⟨l, hl, hin⟩ := h2a a ha
    by_cases h : a = sg.artist
    · subst h
      rw [hsoOld] at hl
      cases hl
      refine ⟨_, hsoA, ?_⟩
      intro s hs
      obtain ⟨hs1, hs2⟩ := (mem_eraseAll _ _ _).mp hs
      exact ⟨(hmemS s).mpr ⟨(hin s hs1).1, hs2⟩, by rw [hown s hs2]; exact (hin s hs1).2⟩
    · refine ⟨l, by rw [hso a h]; exact hl, ?_⟩
      intro s hs
      have hsS : s ≠ S := fun hEq => hK a ha h l hl (hEq ▸ hs)
      exact ⟨(hmemS s).mpr ⟨(hin s hs).1, hsS⟩, by rw [hown s hsS]; exact (hin s hs).2⟩
  · intro s hs a ha hsa
    rw [eArts] at ha
    obtain ⟨hs1, hs2⟩ := (hmemS s).mp hs
    rw [hown s hs2] at hsa
    obtain ⟨l, hl, hin⟩ := h2b s hs1 a ha hsa
    by_cases h : a = sg.artist
    · subst h
      rw [hsoOld] at hl
      cases hl
      exact ⟨_, hsoA, (mem_eraseAll _ _ _).mpr ⟨hin, hs2⟩⟩
    · exact ⟨l, by rw [hso a h]; exact hl, hin⟩

/-- The function `Admin::removeArtist` on an artist of the catalog completes and keeps
validity, I1 and I2. -/
theorem removeArtist_preserves (st : State) (A : Nat) (hv : st.Valid) (h1 : st.I1)
    (h2 : st.I2) (hA : A ∈ st.allArtists) :
    ∃ st', Admin.removeArtist st A = some st' ∧ st'.Valid ∧ st'.I1 ∧ st'.I2 := by
  obtain ⟨hsongs, harts, hpl, hus⟩ := hv
  obtain ⟨h2a, h2b⟩ := h2
  obtain ⟨ar, har, hnd, hok⟩ := (artistOk_iff st A).mp (harts A hA)
  refine ⟨_, removeArtist_eq st A ar har hnd hok hpl hus, ?_⟩
  generalize hst' : ({ st with
      songAt := fun q => if q ∈ ar.songs then none else st.songAt q
      artistAt := setAt (fun a => (st.artistAt a).map (fun ar0 =>
        { ar0 with songs :=
            ar0.songs.filter (fun x => !(decide (x ∈ ar.songs) && decide (st.ownerOf x = some a))) }))
        A none
      playlistAt := fun q => if q ∈ st.allPlaylists
        then (st.playlistAt q).map (fun pl =>
          { pl with songs := pl.songs.filter (fun x => decide (x ∉ ar.songs)) })
        else st.playlistAt q
      userAt := fun q => if q ∈ st.allUsers
        then (st.userAt q).map (fun usr =>
          { usr with favoriteSongs := usr.favoriteSongs.filter (fun x => decide (x ∉ ar.songs)) })
        else st.userAt q
      allSongs := st.allSongs.filter (fun x => decide (x ∉ ar.songs))
      allArtists := eraseAll st.allArtists A } : State) = st'
  have eS : st'.songAt = fun q => if q ∈ ar.songs then none else st.songAt q := by rw [← hst']
  have eA : st'.artistAt = setAt (fun a => (st.artistAt a).map (fun ar0 =>
      { ar0 with songs :=
          ar0.songs.filter (fun x => !(decide (x ∈ ar.songs) && decide (st.ownerOf x = some a))) }))
      A none := by rw [← hst']
  have eAll : st'.allSongs = st.allSongs.filter (fun x => decide (x ∉ ar.songs)) := by
    rw [← hst']
  have eArts : st'.allArtists = eraseAll st.allArtists A := by rw [← hst']
  have ePl : st'.allPlaylists = st.allPlaylists ∧ st'.playlistAt = fun q =>
      if q ∈ st.allPlaylists then (st.playlistAt q).map (fun pl =>
        { pl with songs := pl.songs.filter (fun x => decide (x ∉ ar.songs)) })
      else st.playlistAt q := by
    rw [← hst']; exact ⟨rfl, rfl⟩
  have eUs : st'.allUsers = st.allUsers ∧ st'.userAt = fun q =>
      if q ∈ st.allUsers then (st.userAt q).map (fun usr =>
        { usr with favoriteSongs := usr.favoriteSongs.filter (fun x => decide (x ∉ ar.songs)) })
      else st.userAt q := by
    rw [← hst']; exact ⟨rfl, rfl⟩
  have hsoOld : st.songsOf A = some ar.songs := by simp [State.songsOf, har]
  -- the songs on `A`'s vector are exactly the catalog songs owned by `A`
  have hF1 : ∀ s ∈ ar.songs, s ∈ st.allSongs ∧ st.ownerOf s = some A := by
    obtain ⟨l, hl, hin⟩ := h2a A hA
    rw [hsoOld] at hl
    cases hl
    exact hin
  have hF2 : ∀ s ∈ st.allSongs, st.ownerOf s = some A → s ∈ ar.songs := by
    intro s hs hsa
    obtain ⟨l, hl, hin⟩ := h2b s hs A hA hsa
    rw [hsoOld] at hl
    cases hl
    exact hin
  have hmemS : ∀ s, s ∈ st'.allSongs ↔ s ∈ st.allSongs ∧ s ∉ ar.songs := by
    intro s; rw [eAll]; simp
  have hmemA : ∀ a, a ∈ st'.allArtists ↔ a ∈ st.allArtists ∧ a ≠ A := by
    intro a; rw [eArts]; exact mem_eraseAll _ _ _
  have hown : ∀ s, s ∉ ar.songs → st'.ownerOf s = st.ownerOf s := by
    intro s hs; simp only [State.ownerOf, eS, hs, if_false]
  -- the vector of another catalog artist is untouched
  have hrec : ∀ a ∈ st.allArtists, a ≠ A → ∀ ar0, st.artistAt a = some ar0 →
      st'.artistAt a = some ar0 := by
    intro a ha hne ar0 har0
    rw [eA, setAt_other _ _ _ _ hne]
    simp only [har0, Option.map_some', Option.some.injEq]
    have hid : ar0.songs.filter
        (fun x => !(decide (x ∈ ar.songs) && decide (st.ownerOf x = some a))) = ar0.songs := by
      rw [List.filter_eq_self]
      intro x hx
      have hxa : x ∉ ar.songs ∨ st.ownerOf x ≠ some a := by
        by_cases hxm : x ∈ ar.songs
        · right
          rw [(hF1 x hxm).2]
          intro h
          exact hne (Option.some.inj h).symm
        · left; exact hxm
      rcases hxa with h | h <;> simp [h]
    rw [hid]
  have hso : ∀ a ∈ st.allArtists, a ≠ A → st'.songsOf a = st.songsOf a := by
    intro a ha hne
    obtain ⟨ar0, har0, -⟩ := (artistOk_iff st a).mp (harts a ha)
    simp only [State.songsOf, hrec a ha hne ar0 har0, har0]
  have hlive : ∀ a, a ≠ A → (st.artistAt a).isSome = true → (st'.artistAt a).isSome = true := by
    intro a hne ha
    obtain ⟨ar0, har0⟩ := Option.isSome_iff_exists.mp ha
    rw [eA, setAt_other _ _ _ _ hne]
    simp [har0]
  have hmono : ∀ s, s ∉ ar.songs → st.ownerOf s ≠ some A → st.songOk s → st'.songOk s := by
    intro s hs hsA hsok
    obtain ⟨sg0, ar0, hsg0, har0⟩ := (songOk_iff st s).mp hsok
    rw [songOk_iff]
    have hne : sg0.artist ≠ A := by
      intro h
      apply hsA
      simp [State.ownerOf, hsg0, h]
    obtain ⟨ar1, har1⟩ := Option.isSome_iff_exists.mp (hlive sg0.artist hne (by simp [har0]))
    exact ⟨sg0, ar1, by simp only [eS, hs, if_false]; exact hsg0, har1⟩
  -- a song on the vector of another catalog artist is not one of `A`'s
  have hother : ∀ a ∈ st.allArtists, a ≠ A → ∀ l, st.songsOf a = some l → ∀ s ∈ l,
      s ∈ st.allSongs ∧ st.ownerOf s = some a ∧ s ∉ ar.songs := by
    intro a ha hne l hl s hs
    obtain ⟨l0, hl0, hin⟩ := h2a a ha
    rw [hl] at hl0
    cases hl0
    refine ⟨(hin s hs).1, (hin s hs).2, ?_⟩
    intro hmem
    have := (hF1 s hmem).2
    rw [(hin s hs).2] at this
    exact hne (Option.some.inj this)
  refine ⟨⟨?_, ?_, ?_, ?_⟩, ?_, ?_, ?_⟩
  · intro s hs
    obtain ⟨hs1, hs2⟩ := (hmemS s).mp hs
    exact hmono s hs2 (fun h => hs2 (hF2 s hs1 h)) (hsongs s hs1)
  · intro a ha
    obtain ⟨ha1, ha2⟩ := (hmemA a).mp ha
    rw [artistOk_iff]
    obtain ⟨ar0, har0, hnd0, hok0⟩ := (artistOk_iff st a).mp (harts a ha1)
    refine ⟨ar0, hrec a ha1 ha2 ar0 har0, hnd0, ?_⟩
    intro s hs
    obtain ⟨-, hsown, hsnot⟩ := hother a ha1 ha2 ar0.songs (by simp [State.songsOf, har0]) s hs
    refine hmono s hsnot ?_ (hok0 s hs)
    rw [hsown]
    intro h
    exact ha2 (Option.some.inj h)
  · intro p hp
    rw [ePl.1] at hp
    obtain ⟨pl, hplp⟩ := Option.isSome_iff_exists.mp (hpl p hp)
    simp [ePl.2, hp, hplp]
  · intro u hu
    rw [eUs.1] at hu
    obtain ⟨usr, husr⟩ := Option.isSome_iff_exists.mp (hus u hu)
    simp [eUs.2, hu, husr]
  · intro s hs
    obtain ⟨hs1, hs2⟩ := (hmemS s).mp hs
    obtain ⟨a, ha, hsa⟩ := h1 s hs1
    have hne : a ≠ A := fun h => hs2 (hF2 s hs1 (h ▸ hsa))
    exact ⟨a, (hmemA a).mpr ⟨ha, hne⟩, by rw [hown s hs2]; exact hsa⟩
  · intro a ha
    obtain ⟨ha1, ha2⟩ := (hmemA a).mp ha
    obtain ⟨l, hl, -⟩ := h2a a ha1
    refine ⟨l, by rw [hso a ha1 ha2]; exact hl, ?_⟩
    intro s hs
    obtain ⟨hsall, hsown, hsnot⟩ := hother a ha1 ha2 l hl s hs
    exact ⟨(hmemS s).mpr ⟨hsall, hsnot⟩, by rw [hown s hsnot]; exact hsown⟩
  · intro s hs a ha hsa
    obtain ⟨hs1, hs2⟩ := (hmemS s).mp hs
    obtain ⟨ha1, ha2⟩ := (hmemA a).mp ha
    rw [hown s hs2] at hsa
    obtain ⟨l, hl, hin⟩ := h2b s hs1 a ha1 hsa
    exact ⟨l, by rw [hso a ha1 ha2]; exact hl, hin⟩

/-- Claim C4.  Invariants I1 and I2 are preserved by every catalog mutator.  From
a valid catalog state in which I1 and I2 hold, each of `Admin::createArtist`
(at a fresh address), `Admin::addSong` (at a fresh address, with an artist of
the catalog), `Admin::createAlbum` (with a live artist), `Admin::removeSong`
(of a catalog song) and `Admin::removeArtist` (of a catalog artist) completes
and leads to a state in which I1 and I2 hold again; the state is valid again
too, so the three together are an inductive invariant. -/
theorem mutators_preserve_I1_I2 (st : State) (hv : st.Valid) (h1 : st.I1) (h2 : st.I2) :
    (∀ (f : Nat) (name : String), st.artistAt f = none →
      (Admin.createArtist st f name).Valid ∧ (Admin.createArtist st f name).I1 ∧
        (Admin.createArtist st f name).I2) ∧
    (∀ (f : Nat) (title : String) (artist : Nat) (year : Int) (genre : String),
      st.songAt f = none → artist ∈ st.allArtists →
      ∃ st', Admin.addSong st f title artist year genre = some st' ∧
        st'.Valid ∧ st'.I1 ∧ st'.I2) ∧
    (∀ (self f artist : Nat) (name : String), (st.artistAt artist).isSome = true →
      ∃ st', Admin.createAlbum st self f artist name = some st' ∧
        st'.Valid ∧ st'.I1 ∧ st'.I2) ∧
    (∀ S ∈ st.allSongs,
      ∃ st', Admin.removeSong st S = some st' ∧ st'.Valid ∧ st'.I1 ∧ st'.I2) ∧
    (∀ A ∈ st.allArtists,
      ∃ st', Admin.removeArtist st A = some st' ∧ st'.Valid ∧ st'.I1 ∧ st'.I2) :=
  ⟨fun f name hf => createArtist_preserves st f name hv h1 h2 hf,
    fun f title artist year genre hf hart =>
      addSong_preserves st f title artist year genre hv h1 h2 hf hart,
    fun self f artist name hlive => createAlbum_preserves st self f artist name hv h1 h2 hlive,
    fun S hS => removeSong_preserves st S hv h1 h2 hS,
    fun A hA => removeArtist_preserves st A hv h1 h2 hA⟩

/-! ## Instances on the sample catalog -/

/-- Witness for C5: after "Song One" comes "Song Two"; at "Song Two", the last
song, the loop flag decides between the first song and `nullptr`. -/
theorem getNextSong_sequential_witness :
    User.getNextSong demoState demoUser 7 = some (some 101) ∧
    User.getNextSong demoState (demoUser.setCurrentSong (some 101)) 7 = some none ∧
    User.getNextSong demoState (demoUser.setCurrentSong (some 101)).toggleLoop 7 =
      some (some 100) :=
  ⟨getNextSong_sequential.1 demoState demoUser 200
      { name := "First Album", songs := [100, 101], creator := 1 } [] [101] 100 7
      rfl rfl rfl rfl rfl (by decide),
    getNextSong_sequential.1 demoState (demoUser.setCurrentSong (some 101)) 200
      { name := "First Album", songs := [100, 101], creator := 1 } [100] [] 101 7
      rfl rfl rfl rfl rfl (by decide),
    getNextSong_sequential.1 demoState (demoUser.setCurrentSong (some 101)).toggleLoop 200
      { name := "First Album", songs := [100, 101], creator := 1 } [100] [] 101 7
      rfl rfl rfl rfl rfl (by decide)⟩

/-- Witness for C6: before "Song Two" comes "Song One"; at "Song One", the first
song, the loop flag decides between the last song and "Song One" itself. -/
theorem getPreviousSong_sequential_witness :
    User.getPreviousSong demoState (demoUser.setCurrentSong (some 101)) = some (some 100) ∧
    User.getPreviousSong demoState demoUser = some (some 100) ∧
    User.getPreviousSong demoState demoUser.toggleLoop = some (some 101) :=
  ⟨getPreviousSong_sequential.1 demoState (demoUser.setCurrentSong (some 101)) 200
      { name := "First Album", songs := [100, 101], creator := 1 } [100] [] 101
      rfl rfl rfl rfl rfl (by decide),
    getPreviousSong_sequential.1 demoState demoUser 200
      { name := "First Album", songs := [100, 101], creator := 1 } [] [101] 100
      rfl rfl rfl rfl rfl (by decide),
    getPreviousSong_sequential.1 demoState demoUser.toggleLoop 200
      { name := "First Album", songs := [100, 101], creator := 1 } [] [101] 100
      rfl rfl rfl rfl rfl (by decide)⟩

/-- Witness for C7: in REPEAT mode alice stays at "Song One" in both directions. -/
theorem repeat_and_previous_stay_witness :
    (∀ rand, User.getNextSong demoState (demoUser.setPlaybackMode PlaybackMode.REPEAT) rand =
      some (some 100)) ∧
    User.getPreviousSong demoState (demoUser.setPlaybackMode PlaybackMode.REPEAT) =
      some (some 100) :=
  (repeat_and_previous_stay demoState (demoUser.setPlaybackMode PlaybackMode.REPEAT) 200
    { name := "First Album", songs := [100, 101], creator := 1 } 100
    rfl rfl rfl (by decide)).1 rfl

/-- Witness for C8: alice is at "Song Two", which is then removed from "First Album". -/
theorem navigation_null_cases_witness :
    User.getNextSong
      { demoState with
        playlistAt := (setAt demoState.playlistAt 200 (some (Playlist.removeSong
          { name := "First Album", songs := [100, 101], creator := 1 } 101))) }
      (demoUser.setCurrentSong (some 101)) 7 = some none :=
  navigation_null_cases.2.2.2 demoState (demoUser.setCurrentSong (some 101)) 200
    { name := "First Album", songs := [100, 101], creator := 1 } 100 101 7
    rfl rfl rfl (by decide) rfl

/-- Witness for C9: alice selects "Debut Album" (address 201, songs 102 and 103). -/
theorem setCurrentPlaylist_spec_witness :
    ∃ u', User.setCurrentPlaylist demoState demoUser (some 201) = some u' ∧
      u'.currentPlaylist = some 201 ∧
      u'.currentSong = ((some 201 : Option Nat).bind demoState.playlistAt).bind
        (fun pl => pl.songs.head?) ∧
      u'.playbackMode = demoUser.playbackMode ∧ u'.isLooping = demoUser.isLooping ∧
      (∀ s, u'.currentSong = some s →
        ∃ p pl, u'.currentPlaylist = some p ∧ demoState.playlistAt p = some pl ∧
          s ∈ pl.songs) :=
  setCurrentPlaylist_spec demoState demoUser (some 201)
    (fun p hp => by cases hp; rfl)

/-- Witness for C10: a playlist that saw additions and a removal, then song 101 twice. -/
theorem membership_lists_unique_witness :
    (((List.foldl PlaylistOp.run { name := "mine", songs := [], creator := 300, isPublic := true }
        [PlaylistOp.addSong 100, PlaylistOp.addSong 101, PlaylistOp.removeSong 100,
          PlaylistOp.addSong 100]).addSong 101).addSong 101).songs.count 101 = 1 :=
  membership_lists_unique.1 "mine" 300 true
    [PlaylistOp.addSong 100, PlaylistOp.addSong 101, PlaylistOp.removeSong 100,
      PlaylistOp.addSong 100] 101

/-- Witness for C4: the sample catalog is valid and satisfies I1 and I2, and so
does the state after each of the five mutators. -/
theorem mutators_preserve_I1_I2_witness :
    (demoState.Valid ∧ demoState.I1 ∧ demoState.I2) ∧
    ((Admin.createArtist demoState 12 "Artist Three").Valid ∧
      (Admin.createArtist demoState 12 "Artist Three").I1 ∧
      (Admin.createArtist demoState 12 "Artist Three").I2) ∧
    (∃ st', Admin.addSong demoState 104 "Song Five" 11 2023 "Pop" = some st' ∧
      st'.Valid ∧ st'.I1 ∧ st'.I2) ∧
    (∃ st', Admin.createAlbum demoState 1 203 10 "Second Album" = some st' ∧
      st'.Valid ∧ st'.I1 ∧ st'.I2) ∧
    (∃ st', Admin.removeSong demoState 102 = some st' ∧ st'.Valid ∧ st'.I1 ∧ st'.I2) ∧
    (∃ st', Admin.removeArtist demoState 11 = some st' ∧ st'.Valid ∧ st'.I1 ∧ st'.I2) :=
  ⟨⟨by decide, by decide, by decide⟩,
    (mutators_preserve_I1_I2 demoState (by decide) (by decide) (by decide)).1
      12 "Artist Three" rfl,
    (mutators_preserve_I1_I2 demoState (by decide) (by decide) (by decide)).2.1
      104 "Song Five" 11 2023 "Pop" rfl (by decide),
    (mutators_preserve_I1_I2 demoState (by decide) (by decide) (by decide)).2.2.1
      1 203 10 "Second Album" rfl,
    (mutators_preserve_I1_I2 demoState (by decide) (by decide) (by decide)).2.2.2.1
      102 (by decide),
    (mutators_preserve_I1_I2 demoState (by decide) (by decide) (by decide)).2.2.2.2
      11 (by decide)⟩

/-! ## Registration -/

theorem usernameExists_eq (userAt : Nat → Option User) (us : List Nat) (name : String)
    (hlive : ∀ u ∈ us, (userAt u).isSome = true) :
    usernameExists userAt us name =
      some (decide (name ∈ us.filterMap (fun u => (userAt u).map User.username))) := by
  induction us with
  | nil => simp [usernameExists]
  | cons u us ih =>
    obtain ⟨usr, husr⟩ := Option.isSome_iff_exists.mp (hlive u (List.mem_cons_self _ _))
    have ih' := ih (fun v hv => hlive v (List.mem_cons_of_mem _ hv))
    simp only [usernameExists, husr, List.filterMap_cons, Option.map_some', List.mem_cons]
    by_cases h : usr.username = name
    · simp [h]
    · have h' : ¬ name = usr.username := fun e => h e.symm
      simp only [h, if_false, ih', h', false_or]

theorem usernames_after_register (st : State) (f : Nat) (name pw : String)
    (hlive : ∀ u ∈ st.allUsers, (st.userAt u).isSome = true) (hf : st.userAt f = none) :
    State.usernames { st with
      userAt := setAt st.userAt f (some { username := name, password := pw })
      allUsers := st.allUsers ++ [f] } = st.usernames ++ [name] := by
  have hne : ∀ u ∈ st.allUsers, u ≠ f := by
    intro u hu hEq
    have := hlive u hu
    rw [hEq, hf] at this
    simp at this
  simp only [State.usernames, List.filterMap_append, List.filterMap_cons, setAt_same,
    Option.map_some', List.filterMap_nil]
  congr 1
  apply List.filterMap_congr
  intro u hu
  rw [setAt_other _ _ _ _ (hne u hu)]

theorem registerUser_new (st : State) (f : Nat) (name pw : String)
    (hlive : ∀ u ∈ st.allUsers, (st.userAt u).isSome = true) (hnew : name ∉ st.usernames) :
    registerUser st f name pw = some (true, { st with
      userAt := setAt st.userAt f (some { username := name, password := pw })
      allUsers := st.allUsers ++ [f] }) := by
  have h : name ∉ st.allUsers.filterMap (fun u => (st.userAt u).map User.username) := hnew
  simp only [registerUser, usernameExists_eq st.userAt st.allUsers name hlive, h, decide_False]

theorem registerUser_dup (st : State) (f : Nat) (name pw : String)
    (hlive : ∀ u ∈ st.allUsers, (st.userAt u).isSome = true) (hdup : name ∈ st.usernames) :
    registerUser st f name pw = some (false, st) := by
  have h : name ∈ st.allUsers.filterMap (fun u => (st.userAt u).map User.username) := hdup
  simp only [registerUser, usernameExists_eq st.userAt st.allUsers name hlive, h, decide_True]

theorem live_after_register (st : State) (f : Nat) (name pw : String)
    (hlive : ∀ u ∈ st.allUsers, (st.userAt u).isSome = true) :
    ∀ u ∈ st.allUsers ++ [f],
      (setAt st.userAt f (some { username := name, password := pw }) u).isSome = true := by
  intro u hu
  by_cases h : u = f
  · simp [h]
  · rw [setAt_other _ _ _ _ h]
    simp only [List.mem_append, List.mem_singleton] at hu
    rcases hu with hu | hu
    · exact hlive u hu
    · exact absurd hu h

theorem registerAll_distinct (reqs : List (Nat × String × String)) (st : State)
    (hlive : ∀ u ∈ st.allUsers, (st.userAt u).isSome = true) (hnd : st.usernames.Nodup)
    (haddr : (reqs.map (fun r => r.1)).Nodup) (hfree : ∀ r ∈ reqs, st.userAt r.1 = none) :
    ∃ st', registerAll st reqs = some st' ∧ st'.usernames.Nodup ∧
      ∀ u ∈ st'.allUsers, (st'.userAt u).isSome = true := by
  induction reqs generalizing st with
  | nil => exact ⟨st, rfl, hnd, hlive⟩
  | cons r rest ih =>
    obtain ⟨f, name, pw⟩ := r
    simp only [List.map_cons, List.nodup_cons, List.mem_map, not_exists, not_and] at haddr
    obtain ⟨hfr, hrest⟩ := haddr
    have hf : st.userAt f = none := hfree (f, name, pw) (List.mem_cons_self _ _)
    have hfree' : ∀ r ∈ rest, st.userAt r.1 = none :=
      fun r hr => hfree r (List.mem_cons_of_mem _ hr)
    by_cases hdup : name ∈ st.usernames
    · simp only [registerAll, registerUser_dup st f name pw hlive hdup]
      exact ih st hlive hnd hrest hfree'
    · simp only [registerAll, registerUser_new st f name pw hlive hdup]
      apply ih
      · exact live_after_register st f name pw hlive
      · rw [usernames_after_register st f name pw hlive hf]
        exact List.nodup_append.mpr ⟨hnd, List.nodup_singleton _, by simpa using hdup⟩
      · exact hrest
      · intro r hr
        have hne : r.1 ≠ f := fun h => hfr r hr h
        show setAt st.userAt f _ r.1 = none
        rw [setAt_other _ _ _ _ hne]
        exact hfree' r hr

/-- Claim C11.  Registration (`loginMenu`, case 2) enforces username uniqueness
on the global User collection.  (1) A username equal to that of a user in the
collection is rejected and the state is unchanged.  (2) An absent username
is registered: exactly one user, with that name, is appended.  (3) From a
collection with pairwise distinct usernames every sequence of registrations
keeps them pairwise distinct.  (4) Registering "alice" twice registers her
the first time, rejects the second, and leaves exactly one "alice". -/
theorem registration_unique :
    (∀ (st : State) (f : Nat) (name pw : String),
      (∀ u ∈ st.allUsers, (st.userAt u).isSome = true) → name ∈ st.usernames →
      registerUser st f name pw = some (false, st)) ∧
    (∀ (st : State) (f : Nat) (name pw : String),
      (∀ u ∈ st.allUsers, (st.userAt u).isSome = true) → st.userAt f = none →
      name ∉ st.usernames →
      ∃ st', registerUser st f name pw = some (true, st') ∧
        st'.allUsers = st.allUsers ++ [f] ∧
        st'.userAt f = some { username := name, password := pw } ∧
        (∀ u, u ≠ f → st'.userAt u = st.userAt u) ∧
        st'.usernames = st.usernames ++ [name]) ∧
    (∀ (st : State) (reqs : List (Nat × String × String)),
      (∀ u ∈ st.allUsers, (st.userAt u).isSome = true) → st.usernames.Nodup →
      (reqs.map (fun r => r.1)).Nodup → (∀ r ∈ reqs, st.userAt r.1 = none) →
      ∃ st', registerAll st reqs = some st' ∧ st'.usernames.Nodup) ∧
    (∀ (st : State) (f1 f2 : Nat) (pw1 pw2 : String),
      (∀ u ∈ st.allUsers, (st.userAt u).isSome = true) → st.userAt f1 = none →
      "alice" ∉ st.usernames →
      ∃ st1, registerUser st f1 "alice" pw1 = some (true, st1) ∧
        registerUser st1 f2 "alice" pw2 = some (false, st1) ∧
        st1.usernames.count "alice" = 1) := by
  refine ⟨?_, ?_, ?_, ?_⟩
  · intro st f name pw hlive hdup
    exact registerUser_dup st f name pw hlive hdup
  · intro st f name pw hlive hf hnew
    exact ⟨_, registerUser_new st f name pw hlive hnew, rfl, setAt_same _ _ _,
      fun u hu => setAt_other _ _ _ _ hu, usernames_after_register st f name pw hlive hf⟩
  · intro st reqs hlive hnd haddr hfree
    obtain ⟨st', h1, h2, -⟩ := registerAll_distinct reqs st hlive hnd haddr hfree
    exact ⟨st', h1, h2⟩
  · intro st f1 f2 pw1 pw2 hlive hf hnew
    refine ⟨_, registerUser_new st f1 "alice" pw1 hlive hnew, ?_, ?_⟩
    · apply registerUser_dup _ f2 "alice" pw2 (live_after_register st f1 "alice" pw1 hlive)
      rw [usernames_after_register st f1 "alice" pw1 hlive hf]
      simp
    · rw [usernames_after_register st f1 "alice" pw1 hlive hf, List.count_append]
      simp [List.count_eq_zero_of_not_mem hnew]

/-- Witness for C11: on the sample catalog "alice" is rejected, "bob" is
registered at address 301, and a second "bob" is then rejected. -/
theorem registration_unique_witness :
    registerUser demoState 301 "alice" "x" = some (false, demoState) ∧
    (∃ st', registerUser demoState 301 "bob" "y" = some (true, st') ∧
      st'.allUsers = demoState.allUsers ++ [301] ∧
      st'.userAt 301 = some { username := "bob", password := "y" } ∧
      (∀ u, u ≠ 301 → st'.userAt u = demoState.userAt u) ∧
      st'.usernames = demoState.usernames ++ ["bob"]) ∧
    (∃ st', registerAll demoState [(301, "bob", "y"), (302, "bob", "z"), (303, "Alice", "w")] =
      some st' ∧ st'.usernames.Nodup) :=
  ⟨registration_unique.1 demoState 301 "alice" "x" (by decide) (by decide),
    registration_unique.2.1 demoState 301 "bob" "y" (by decide) rfl (by decide),
    registration_unique.2.2.1 demoState [(301, "bob", "y"), (302, "bob", "z"), (303, "Alice", "w")]
      (by decide) (by decide) (by decide) (by decide)⟩

/-! ## Operations on absent targets -/

theorem eraseAll_of_not_mem (v : List Nat) (p : Nat) (h : p ∉ v) : eraseAll v p = v := by
  unfold eraseAll
  rw [List.filter_eq_self]
  intro x hx
  have : x ≠ p := fun e => h (e ▸ hx)
  simpa using this

/-- Claim C12, as amended.  `Admin::removeSong` has no membership check and no
error result: called on a live song that is not in the global Song
collection it completes like any other deletion.  The global Song collection
is unchanged, the song is released, and it is absent from its owner's song
list, from every global playlist and from every catalog user's favorites. -/
theorem removeSong_absent_song (st : State) (song : Nat) (hok : st.songOk song)
    (hpl : ∀ p ∈ st.allPlaylists, (st.playlistAt p).isSome = true)
    (hus : ∀ u ∈ st.allUsers, (st.userAt u).isSome = true)
    (habsent : song ∉ st.allSongs) :
    ∃ st' sg, st.songAt song = some sg ∧ Admin.removeSong st song = some st' ∧
      st'.allSongs = st.allSongs ∧ st'.songAt song = none ∧
      (∃ ar', st'.artistAt sg.artist = some ar' ∧ song ∉ ar'.songs) ∧
      st'.allPlaylists = st.allPlaylists ∧
      (∀ p ∈ st'.allPlaylists, ∃ pl, st'.playlistAt p = some pl ∧ song ∉ pl.songs) ∧
      st'.allUsers = st.allUsers ∧
      (∀ u ∈ st'.allUsers, ∃ usr, st'.userAt u = some usr ∧ song ∉ usr.favoriteSongs) := by
  obtain ⟨sg, ar, hsg, har⟩ := (songOk_iff st song).mp hok
  refine ⟨_, sg, hsg, removeSong_eq st song sg ar hsg har hpl hus,
    eraseAll_of_not_mem _ _ habsent, setAt_same _ _ _,
    ⟨_, setAt_same _ _ _, not_mem_eraseAll_self _ _⟩, rfl, ?_, rfl, ?_⟩
  · intro p hp
    obtain ⟨pl, hplp⟩ := Option.isSome_iff_exists.mp (hpl p hp)
    have hp' : p ∈ st.allPlaylists := hp
    exact ⟨pl.removeSong song, by simp [hp', hplp], not_mem_eraseAll_self _ _⟩
  · intro u hu
    obtain ⟨usr, husr⟩ := Option.isSome_iff_exists.mp (hus u hu)
    have hu' : u ∈ st.allUsers := hu
    exact ⟨usr.removeFavoriteSong song, by simp [hu', husr], not_mem_eraseAll_self _ _⟩

/-- Witness for C12 as amended: the loose song at address 104. -/
theorem removeSong_absent_song_witness :
    ∃ st' sg, looseState.songAt 104 = some sg ∧ Admin.removeSong looseState 104 = some st' ∧
      st'.allSongs = looseState.allSongs ∧ st'.songAt 104 = none ∧
      (∃ ar', st'.artistAt sg.artist = some ar' ∧ 104 ∉ ar'.songs) ∧
      st'.allPlaylists = looseState.allPlaylists ∧
      (∀ p ∈ st'.allPlaylists, ∃ pl, st'.playlistAt p = some pl ∧ 104 ∉ pl.songs) ∧
      st'.allUsers = looseState.allUsers ∧
      (∀ u ∈ st'.allUsers, ∃ usr, st'.userAt u = some usr ∧ 104 ∉ usr.favoriteSongs) :=
  removeSong_absent_song looseState 104 (by decide) (by decide) (by decide) (by decide)

/-- Counterexample to C12 as stated: the song at address 104 is not in the global
Song collection, yet `Admin::removeSong` does not fail on it; it returns
normally, having released the song and taken it off "First Album". -/
theorem removeSong_absent_completes :
    104 ∉ looseState.allSongs ∧
    ∃ st', Admin.removeSong looseState 104 = some st' ∧
      st'.allSongs = [100, 101, 102, 103] ∧ st'.songAt 104 = none ∧
      (st'.playlistAt 200).map Playlist.songs = some [100, 101] := by
  refine ⟨by decide, _, removeSong_eq looseState 104 _ _ rfl rfl (by decide) (by decide),
    ?_, ?_, ?_⟩
  · decide
  · decide
  · decide

theorem getElem?_at_length (pre post : List Nat) (p : Nat) :
    (pre ++ p :: post)[pre.length]? = some p := by
  induction pre with
  | nil => simp
  | cons x xs ih => simpa using ih

theorem eraseIdx_at_length (pre post : List Nat) (p : Nat) :
    (pre ++ p :: post).eraseIdx pre.length = pre ++ post := by
  induction pre with
  | nil => simp
  | cons x xs ih => simpa using ih

/-- Claim C13, as amended.  `User::deletePlaylist` has no error result.  (1) When
the playlist is not among the user's personal playlists the call returns
normally and the state is unchanged.  (2) Otherwise, with the personal list
`pre ++ p :: post` and `p` not in `pre`, it releases `p` and leaves the
personal list `pre ++ post`: exactly that entry is removed and the remaining
ones keep their order; on a duplicate-free list `p` is then gone. -/
theorem deletePlaylist_spec (st : State) (self : Nat) (u : User)
    (hu : st.userAt self = some u) :
    (∀ p, p ∉ u.personalPlaylists → User.deletePlaylist st self p = some st) ∧
    (∀ (p : Nat) (pre post : List Nat), u.personalPlaylists = pre ++ p :: post → p ∉ pre →
      (st.playlistAt p).isSome = true →
      User.deletePlaylist st self p = some { st with
        playlistAt := setAt st.playlistAt p none
        userAt := setAt st.userAt self (some { u with personalPlaylists := pre ++ post }) } ∧
      (pre ++ post).Sublist u.personalPlaylists ∧
      (u.personalPlaylists.Nodup → p ∉ pre ++ post)) := by
  constructor
  · intro p hp
    simp only [User.deletePlaylist, hu, (find_eq_length_iff _ _).mpr hp, ne_eq,
      not_true_eq_false, if_false]
  · intro p pre post hl hpre hlive
    obtain ⟨pl, hplp⟩ := Option.isSome_iff_exists.mp hlive
    have hfind : find u.personalPlaylists (some p) = pre.length := by
      rw [hl]; exact find_append_cons pre post p hpre
    have hlen : pre.length ≠ u.personalPlaylists.length := by
      rw [hl]; simp only [List.length_append, List.length_cons]; omega
    refine ⟨?_, ?_, ?_⟩
    · simp only [User.deletePlaylist, hu, hfind, hlen, ne_eq, not_false_eq_true, if_true]
      rw [hl, getElem?_at_length, eraseIdx_at_length]
      simp only [hplp]
    · rw [hl]
      exact List.Sublist.append_left (List.sublist_cons_self p post) pre
    · intro hnd
      rw [hl] at hnd
      have h1 := (List.nodup_append.mp hnd).2.1
      simp only [List.mem_append, not_or]
      exact ⟨hpre, (List.nodup_cons.mp h1).1⟩

/-- Witness for C13 as amended: alice deletes her personal playlist "mine". -/
theorem deletePlaylist_spec_witness :
    User.deletePlaylist demoState 300 202 = some { demoState with
      playlistAt := setAt demoState.playlistAt 202 none
      userAt := setAt demoState.userAt 300
        (some { username := "alice", password := "pw", favoriteSongs := [100],
                personalPlaylists := [] }) } :=
  ((deletePlaylist_spec demoState 300
    { username := "alice", password := "pw", favoriteSongs := [100],
      personalPlaylists := [202] } rfl).2 202 [] [] rfl (by decide) rfl).1

/-- Counterexample to C13 as stated: "First Album" (address 200) is not among alice's
personal playlists, yet `User::deletePlaylist` does not fail on it; it returns
normally with the state as it was. -/
theorem deletePlaylist_absent_completes :
    (∃ usr, demoState.userAt 300 = some usr ∧ 200 ∉ usr.personalPlaylists) ∧
    User.deletePlaylist demoState 300 200 = some demoState :=
  ⟨⟨_, rfl, by decide⟩, rfl⟩

/-! ## Search -/

/-- The call `s.find(q)` finds something exactly when `q` occurs in `s` as a
contiguous block. -/
theorem stringFind_isSome (q s : List Char) : (stringFind q s).isSome = true ↔ q <:+: s := by
  induction s with
  | nil =>
    simp only [stringFind, List.infix_nil]
    by_cases h : q = [] <;> simp [h]
  | cons c t ih =>
    simp only [stringFind, List.infix_cons_iff]
    by_cases h : q.isPrefixOf (c :: t) = true
    · simp only [h, if_true, Option.isSome_some, true_iff]
      exact Or.inl (List.isPrefixOf_iff_prefix.mp h)
    · have h' : ¬ q <+: c :: t := fun hp => h (List.isPrefixOf_iff_prefix.mpr hp)
      simp only [h, if_false, Option.isSome_map', ih, h', false_or, Bool.false_eq_true]

/-- A position returned by `s.find(q)` is one where `q` starts in `s`. -/
theorem stringFind_position (q s : List Char) (i : Nat) (h : stringFind q s = some i) :
    q <+: s.drop i := by
  induction s generalizing i with
  | nil =>
    simp only [stringFind] at h
    by_cases hq : q = []
    · simp [hq]
    · simp [hq] at h
  | cons c t ih =>
    simp only [stringFind] at h
    by_cases hp : q.isPrefixOf (c :: t) = true
    · simp only [hp, if_true, Option.some.injEq] at h
      subst h
      exact List.isPrefixOf_iff_prefix.mp hp
    · simp only [hp, if_false, Option.map_eq_some', Bool.false_eq_true] at h
      obtain ⟨j, hj, rfl⟩ := h
      simpa using ih j hj

theorem searchSongsLoop_eq (st : State) (query : String) (l acc : List Nat)
    (hok : ∀ s ∈ l, st.songOk s) :
    searchSongsLoop st query l acc = some (acc ++ l.filter (st.songMatches query)) := by
  induction l generalizing acc with
  | nil => simp [searchSongsLoop]
  | cons s l ih =>
    obtain ⟨sg, ar, hsg, har⟩ := (songOk_iff st s).mp (hok s (List.mem_cons_self _ _))
    have ih' := fun acc => ih acc (fun x hx => hok x (List.mem_cons_of_mem _ hx))
    simp only [searchSongsLoop, hsg, har]
    by_cases h1 : (stringFind query.data sg.title.data).isSome = true
    · have hm : st.songMatches query s = true := by
        simp [State.songMatches, hsg, (stringFind_isSome _ _).mp h1]
      simp only [h1, if_true, ih', List.filter_cons, hm, List.append_assoc,
        List.singleton_append]
    · have h1' : ¬ query.data <:+: sg.title.data :=
        fun h => h1 ((stringFind_isSome _ _).mpr h)
      by_cases h2 : (stringFind query.data ar.name.data).isSome = true
      · have hm : st.songMatches query s = true := by
          simp [State.songMatches, hsg, har, (stringFind_isSome _ _).mp h2]
        simp only [h1, h2, if_true, if_false, ih', List.filter_cons, hm, List.append_assoc,
          List.singleton_append, Bool.false_eq_true]
      · have h2' : ¬ query.data <:+: ar.name.data :=
          fun h => h2 ((stringFind_isSome _ _).mpr h)
        have hm : st.songMatches query s = false := by
          simp [State.songMatches, hsg, har, h1', h2']
        simp only [h1, h2, if_false, ih', List.filter_cons, hm, Bool.false_eq_true]

theorem searchPlaylistsLoop_eq (st : State) (query : String) (l acc : List Nat)
    (hlive : ∀ p ∈ l, (st.playlistAt p).isSome = true) :
    searchPlaylistsLoop st query l acc = some (acc ++ l.filter (st.playlistMatches query)) := by
  induction l generalizing acc with
  | nil => simp [searchPlaylistsLoop]
  | cons p l ih =>
    obtain ⟨pl, hpl⟩ := Option.isSome_iff_exists.mp (hlive p (List.mem_cons_self _ _))
    have ih' := fun acc => ih acc (fun x hx => hlive x (List.mem_cons_of_mem _ hx))
    simp only [searchPlaylistsLoop, hpl]
    by_cases h1 : (stringFind query.data pl.name.data).isSome = true
    · have hm : st.playlistMatches query p = true := by
        simp [State.playlistMatches, hpl, (stringFind_isSome _ _).mp h1]
      simp only [h1, if_true, ih', List.filter_cons, hm, List.append_assoc,
        List.singleton_append]
    · have h1' : ¬ query.data <:+: pl.name.data :=
        fun h => h1 ((stringFind_isSome _ _).mpr h)
      have hm : st.playlistMatches query p = false := by
        simp [State.playlistMatches, hpl, h1']
      simp only [h1, if_false, ih', List.filter_cons, hm, Bool.false_eq_true]

/-- Claim C14.  Search is an order-preserving filter of the catalog.  On a valid
catalog state, for every query, `User::searchSongs` returns the songs of the
global Song collection whose title or whose owning artist's name contains
the query as a case-sensitive contiguous substring, and
`User::searchPlaylists` returns the playlists of the global Playlist
collection whose name contains it; both are the catalog list filtered, so
the catalog order is kept and no entry occurs more often than in the catalog
(at most once when the catalog holds it once). -/
theorem search_is_filter (st : State) (query : String) (hv : st.Valid) :
    User.searchSongs st query = some (st.allSongs.filter (st.songMatches query)) ∧
    User.searchPlaylists st query =
      some (st.allPlaylists.filter (st.playlistMatches query)) ∧
    (∀ s, s ∈ st.allSongs.filter (st.songMatches query) ↔
      s ∈ st.allSongs ∧ ∃ sg ar, st.songAt s = some sg ∧ st.artistAt sg.artist = some ar ∧
        (query.data <:+: sg.title.data ∨ query.data <:+: ar.name.data)) ∧
    (∀ p, p ∈ st.allPlaylists.filter (st.playlistMatches query) ↔
      p ∈ st.allPlaylists ∧ ∃ pl, st.playlistAt p = some pl ∧ query.data <:+: pl.name.data) ∧
    (st.allSongs.filter (st.songMatches query)).Sublist st.allSongs ∧
    (st.allPlaylists.filter (st.playlistMatches query)).Sublist st.allPlaylists ∧
    (st.allSongs.Nodup → (st.allSongs.filter (st.songMatches query)).Nodup) := by
  obtain ⟨hsongs, -, hpl, -⟩ := hv
  refine ⟨?_, ?_, ?_, ?_, List.filter_sublist _, List.filter_sublist _, fun h => h.filter _⟩
  · simpa [User.searchSongs] using searchSongsLoop_eq st query st.allSongs [] hsongs
  · simpa [User.searchPlaylists] using searchPlaylistsLoop_eq st query st.allPlaylists [] hpl
  · intro s
    rw [List.mem_filter]
    constructor
    · rintro ⟨hs, hm⟩
      obtain ⟨sg, ar, hsg, har⟩ := (songOk_iff st s).mp (hsongs s hs)
      refine ⟨hs, sg, ar, hsg, har, ?_⟩
      simpa [State.songMatches, hsg, har] using hm
    · rintro ⟨hs, sg, ar, hsg, har, hm⟩
      refine ⟨hs, ?_⟩
      simpa [State.songMatches, hsg, har] using hm
  · intro p
    rw [List.mem_filter]
    constructor
    · rintro ⟨hp, hm⟩
      obtain ⟨pl, hplp⟩ := Option.isSome_iff_exists.mp (hpl p hp)
      refine ⟨hp, pl, hplp, ?_⟩
      simpa [State.playlistMatches, hplp] using hm
    · rintro ⟨hp, pl, hplp, hm⟩
      refine ⟨hp, ?_⟩
      simpa [State.playlistMatches, hplp] using hm

/-- Witness for C14: on the sample catalog "One" finds "Song One" by its title and
"Song Two" by its artist "Artist One", and "Album" finds both albums. -/
theorem search_is_filter_witness :
    User.searchSongs demoState "One" = some [100, 101] ∧
    User.searchPlaylists demoState "Album" = some [200, 201] ∧
    User.searchPlaylists demoState "album" = some [] :=
  ⟨(search_is_filter demoState "One" (by decide)).1.trans (by decide),
    (search_is_filter demoState "Album" (by decide)).2.1.trans (by decide),
    (search_is_filter demoState "album" (by decide)).2.1.trans (by decide)⟩

/-! ## RANDOM mode -/

/-- The result of `User::getNextSong` in RANDOM mode, when the current song is found. -/
theorem getNextSong_random (st : State) (u : User) (p : Nat) (pl : Playlist) (c rand : Nat)
    (hcp : u.currentPlaylist = some p) (hpl : st.playlistAt p = some pl)
    (hcs : u.currentSong = some c) (hmem : c ∈ pl.songs)
    (hmode : u.playbackMode = PlaybackMode.RANDOM) :
    User.getNextSong st u rand = (pl.songs[rand % pl.songs.length]?).map some := by
  have hne : pl.songs ≠ [] := List.ne_nil_of_mem hmem
  have hfind := find_lt_of_mem pl.songs c hmem
  simp only [User.getNextSong, hcp, hpl, hne, if_false, hcs, hfind, hmode]

/-- Claim C15, as amended.  In RANDOM mode, whenever the current song is found in
the current playlist, `User::getNextSong` returns a member of the playlist
for every value of `rand()` (the index is in bounds, the result is never
`nullptr`).  The values of `rand()` are those up to `RAND_MAX` (the parameter
`randMax`): every song of a playlist of at most `RAND_MAX + 1` songs, the
current one included, is the result for one of them. -/
theorem random_next_in_playlist (st : State) (u : User) (p : Nat) (pl : Playlist)
    (c randMax : Nat)
    (hcp : u.currentPlaylist = some p) (hpl : st.playlistAt p = some pl)
    (hcs : u.currentSong = some c) (hmem : c ∈ pl.songs)
    (hmode : u.playbackMode = PlaybackMode.RANDOM) :
    (∀ rand, ∃ s ∈ pl.songs, User.getNextSong st u rand = some (some s)) ∧
    (pl.songs.length ≤ randMax + 1 →
      ∀ s ∈ pl.songs, ∃ rand, rand ≤ randMax ∧
        User.getNextSong st u rand = some (some s)) := by
  have hpos : 0 < pl.songs.length := List.length_pos_of_mem hmem
  constructor
  · intro rand
    have hlt : rand % pl.songs.length < pl.songs.length := Nat.mod_lt _ hpos
    refine ⟨pl.songs[rand % pl.songs.length], List.getElem_mem _, ?_⟩
    rw [getNextSong_random st u p pl c rand hcp hpl hcs hmem hmode,
      List.getElem?_eq_getElem hlt]
    rfl
  · intro hsize s hs
    obtain ⟨i, hi, hget⟩ := List.getElem_of_mem hs
    refine ⟨i, by omega, ?_⟩
    rw [getNextSong_random st u p pl c i hcp hpl hcs hmem hmode, Nat.mod_eq_of_lt hi,
      List.getElem?_eq_getElem hi, hget]
    rfl

/-- Witness for C15 as amended: alice on "First Album" in RANDOM mode, with
`RAND_MAX` = 32767; every draw stays on the album and draw 1 gives "Song Two". -/
theorem random_next_in_playlist_witness :
    (∀ rand, ∃ s ∈ [100, 101],
      User.getNextSong demoState (demoUser.setPlaybackMode PlaybackMode.RANDOM) rand =
        some (some s)) ∧
    (∀ s ∈ [100, 101], ∃ rand, rand ≤ 32767 ∧
      User.getNextSong demoState (demoUser.setPlaybackMode PlaybackMode.RANDOM) rand =
        some (some s)) :=
  ⟨(random_next_in_playlist demoState (demoUser.setPlaybackMode PlaybackMode.RANDOM) 200
      { name := "First Album", songs := [100, 101], creator := 1 } 100 32767
      rfl rfl rfl (by decide) rfl).1,
    (random_next_in_playlist demoState (demoUser.setPlaybackMode PlaybackMode.RANDOM) 200
      { name := "First Album", songs := [100, 101], creator := 1 } 100 32767
      rfl rfl rfl (by decide) rfl).2 (by decide)⟩

/-- On a playlist whose songs are the addresses below `n`, a value of `rand()` up to
`randMax` never selects a song at an address above `randMax`. -/
theorem random_range_misses (st : State) (u : User) (p : Nat) (name : String)
    (creator : Nat) (isPublic : Bool) (n m randMax : Nat)
    (hcp : u.currentPlaylist = some p)
    (hpl : st.playlistAt p =
      some { name := name, songs := List.range n, creator := creator, isPublic := isPublic })
    (hcs : u.currentSong = some 0) (hmode : u.playbackMode = PlaybackMode.RANDOM)
    (hm : m < n) (hr : randMax < m) :
    ¬ ∃ rand, rand ≤ randMax ∧ User.getNextSong st u rand = some (some m) := by
  rintro ⟨rand, hle, h⟩
  have hmem : 0 ∈ List.range n := List.mem_range.mpr (by omega)
  rw [getNextSong_random st u p _ 0 rand hcp hpl hcs hmem hmode] at h
  have hlt : rand < n := by omega
  simp only [List.length_range, Nat.mod_eq_of_lt hlt, List.getElem?_range hlt,
    Option.map_some', Option.some.injEq] at h
  omega

/-- Counterexample to C15 as stated, with `RAND_MAX` = 32767 (the least value the C
standard allows): the song at address 32768 is on the current playlist of
32769 songs, and the current song is found, yet no value of `rand()` makes
`User::getNextSong` return it. -/
theorem random_draw_misses_song :
    (bigState.playlistAt 200 =
        some { name := "Box Set", songs := List.range 32769, creator := 1 } ∧
      bigUser.currentPlaylist = some 200 ∧ bigUser.currentSong = some 0 ∧
      0 ∈ List.range 32769 ∧ 32768 ∈ List.range 32769) ∧
    ¬ ∃ rand, rand ≤ 32767 ∧ User.getNextSong bigState bigUser rand = some (some 32768) :=
  ⟨⟨rfl, rfl, rfl, List.mem_range.mpr (by norm_num), List.mem_range.mpr (by norm_num)⟩,
    random_range_misses bigState bigUser 200 "Box Set" 1 true 32769 32768 32767
      rfl rfl rfl rfl (by norm_num) (by norm_num)⟩

/-! ## Next and previous as inverses -/

theorem not_mem_pre_of_nodup (pre post : List Nat) (c : Nat) (hnd : (pre ++ c :: post).Nodup) :
    c ∉ pre := by
  intro hmem
  exact (List.disjoint_left.mp (List.nodup_append.mp hnd).2.2 hmem) (List.mem_cons_self _ _)

/-- The result of `User::getNextSong` in SEQUENTIAL mode at the position of the
current song. -/
theorem next_sequential_at (st : State) (u : User) (p : Nat) (pl : Playlist)
    (pre post : List Nat) (c rand : Nat)
    (hcp : u.currentPlaylist = some p) (hpl : st.playlistAt p = some pl)
    (hmode : u.playbackMode = PlaybackMode.SEQUENTIAL) (hcs : u.currentSong = some c)
    (hsongs : pl.songs = pre ++ c :: post) (hnd : pl.songs.Nodup) :
    User.getNextSong st u rand = some
      (match post with
       | nxt :: _ => some nxt
       | [] => if u.isLooping = true then pl.songs.head? else none) := by
  have hc : c ∉ pre := not_mem_pre_of_nodup pre post c (hsongs ▸ hnd)
  have hfind : find pl.songs (some c) = pre.length := by
    rw [hsongs]; exact find_append_cons pre post c hc
  have hne : pl.songs ≠ [] := by rw [hsongs]; simp
  simp only [User.getNextSong, hcp, hpl, hne, if_false, hcs, hfind, hmode]
  cases post with
  | nil =>
    simp only [hsongs, List.length_append, List.length_cons, List.length_nil]
    cases pre <;> cases u.isLooping <;> simp
  | cons nxt post' =>
    simp only [hsongs, List.length_append, List.length_cons]
    have h1 : ¬ (pre.length = pre.length + (post'.length + 1 + 1)) := by omega
    have h2 : ¬ (pre.length + 1 = pre.length + (post'.length + 1 + 1)) := by omega
    simp only [h1, h2, if_false, ne_eq, not_false_eq_true, if_true, getElem?_after,
      Option.map_some']

/-- The result of `User::getPreviousSong` in SEQUENTIAL mode at the position of the
current song. -/
theorem previous_sequential_at (st : State) (u : User) (p : Nat) (pl : Playlist)
    (pre post : List Nat) (c : Nat)
    (hcp : u.currentPlaylist = some p) (hpl : st.playlistAt p = some pl)
    (hmode : u.playbackMode = PlaybackMode.SEQUENTIAL) (hcs : u.currentSong = some c)
    (hsongs : pl.songs = pre ++ c :: post) (hnd : pl.songs.Nodup) :
    User.getPreviousSong st u = some
      (match pre.getLast? with
       | some prv => some prv
       | none => if u.isLooping = true then pl.songs.getLast? else some c) := by
  have hc : c ∉ pre := not_mem_pre_of_nodup pre post c (hsongs ▸ hnd)
  have hfind : find pl.songs (some c) = pre.length := by
    rw [hsongs]; exact find_append_cons pre post c hc
  have hne : pl.songs ≠ [] := by rw [hsongs]; simp
  have hlen : ¬ pre.length = pl.songs.length := by
    rw [hsongs]; simp only [List.length_append, List.length_cons]; omega
  simp only [User.getPreviousSong, hcp, hpl, hne, if_false, hcs, hfind, hmode, hlen, if_true]
  rcases List.eq_nil_or_concat pre with hpre | ⟨pre', prv, hpre⟩
  · subst hpre
    cases hl : pl.songs.getLast? with
    | none => exact absurd (List.getLast?_eq_none_iff.mp hl) hne
    | some a => cases u.isLooping <;> simp
  · rw [List.concat_eq_append] at hpre
    subst hpre
    have h0 : (pre' ++ [prv]).length ≠ 0 := by simp
    have hs : pl.songs = pre' ++ prv :: c :: post := by rw [hsongs]; simp
    simp only [h0, ne_eq, not_false_eq_true, if_true, hs, getElem?_before,
      Option.map_some', List.getLast?_append, List.getLast?_singleton, Option.or_some]

/-- Claim C16.  In SEQUENTIAL mode, on a duplicate-free current playlist that
contains the current song `c`, whatever the loop flag: if
`User::getNextSong` returns a song `s`, then once `s` is committed with
`setCurrentSong`, `User::getPreviousSong` returns `c`.  With the loop flag
set the converse holds too: if `User::getPreviousSong` returns `s`, then
once `s` is committed `User::getNextSong` returns `c`. -/
theorem previous_undoes_next (st : State) (u : User) (p : Nat) (pl : Playlist) (c : Nat)
    (hcp : u.currentPlaylist = some p) (hpl : st.playlistAt p = some pl)
    (hmode : u.playbackMode = PlaybackMode.SEQUENTIAL) (hcs : u.currentSong = some c)
    (hmem : c ∈ pl.songs) (hnd : pl.songs.Nodup) :
    (∀ rand s, User.getNextSong st u rand = some (some s) →
      User.getPreviousSong st (u.setCurrentSong (some s)) = some (some c)) ∧
    (u.isLooping = true → ∀ s, User.getPreviousSong st u = some (some s) →
      ∀ rand, User.getNextSong st (u.setCurrentSong (some s)) rand = some (some c)) := by
  obtain ⟨pre, post, hsongs⟩ := List.append_of_mem hmem
  constructor
  · intro rand s hnext
    rw [next_sequential_at st u p pl pre post c rand hcp hpl hmode hcs hsongs hnd] at hnext
    cases post with
    | cons nxt post' =>
      simp only [Option.some.injEq] at hnext
      subst hnext
      have hs2 : pl.songs = (pre ++ [c]) ++ nxt :: post' := by rw [hsongs]; simp
      rw [previous_sequential_at st (u.setCurrentSong (some nxt)) p pl (pre ++ [c]) post' nxt
        hcp hpl hmode rfl hs2 hnd]
      simp
    | nil =>
      cases hloop : u.isLooping with
      | false => simp [hloop] at hnext
      | true =>
        simp only [hloop, if_true, Option.some.injEq] at hnext
        have hloop' : (u.setCurrentSong (some s)).isLooping = true := hloop
        cases pre with
        | nil =>
          simp only [hsongs, List.nil_append, List.head?_cons, Option.some.injEq] at hnext
          subst hnext
          rw [previous_sequential_at st (u.setCurrentSong (some c)) p pl [] [] c
            hcp hpl hmode rfl hsongs hnd]
          simp [hloop', hsongs]
        | cons x pre' =>
          simp only [hsongs, List.cons_append, List.head?_cons, Option.some.injEq] at hnext
          subst hnext
          have hs2 : pl.songs = [] ++ x :: (pre' ++ [c]) := by rw [hsongs]; simp
          rw [previous_sequential_at st (u.setCurrentSong (some x)) p pl [] (pre' ++ [c]) x
            hcp hpl hmode rfl hs2 hnd]
          have hlast : pl.songs.getLast? = some c := by
            rw [show pl.songs = (x :: pre') ++ [c] from hsongs]
            simp only [List.getLast?_append, List.getLast?_singleton, Option.or_some]
          simp [hloop', hlast]
  · intro hloop s hprev rand
    rw [previous_sequential_at st u p pl pre post c hcp hpl hmode hcs hsongs hnd] at hprev
    have hloop' : (u.setCurrentSong (some s)).isLooping = true := hloop
    rcases List.eq_nil_or_concat pre with hpre | ⟨pre', prv, hpre⟩
    · subst hpre
      simp only [List.getLast?_nil, hloop, if_true, Option.some.injEq] at hprev
      rcases List.eq_nil_or_concat post with hpost | ⟨post', l, hpost⟩
      · subst hpost
        simp only [hsongs, List.nil_append, List.getLast?_singleton, Option.some.injEq] at hprev
        subst hprev
        rw [next_sequential_at st (u.setCurrentSong (some c)) p pl [] [] c rand
          hcp hpl hmode rfl hsongs hnd]
        simp [hloop', hsongs]
      · rw [List.concat_eq_append] at hpost
        subst hpost
        have hs2 : pl.songs = (c :: post') ++ l :: [] := by rw [hsongs]; simp
        rw [hs2] at hprev
        simp only [List.getLast?_append, List.getLast?_singleton, Option.or_some,
          Option.some.injEq] at hprev
        subst hprev
        rw [next_sequential_at st (u.setCurrentSong (some l)) p pl (c :: post') [] l rand
          hcp hpl hmode rfl hs2 hnd]
        simp [hloop', hs2]
    · rw [List.concat_eq_append] at hpre
      subst hpre
      simp only [List.getLast?_append, List.getLast?_singleton, Option.or_some,
        Option.some.injEq] at hprev
      subst hprev
      have hs2 : pl.songs = pre' ++ prv :: c :: post := by rw [hsongs]; simp
      rw [next_sequential_at st (u.setCurrentSong (some prv)) p pl pre' (c :: post) prv rand
        hcp hpl hmode rfl hs2 hnd]

/-- Witness for C16: on "First Album" alice goes from "Song One" to "Song Two" and
back; with the loop flag set she goes back from "Song One" to "Song Two", the
last song, and forward again to "Song One". -/
theorem previous_undoes_next_witness :
    User.getPreviousSong demoState (demoUser.setCurrentSong (some 101)) = some (some 100) ∧
    (∀ rand, User.getNextSong demoState (demoUser.toggleLoop.setCurrentSong (some 101)) rand =
      some (some 100)) :=
  ⟨(previous_undoes_next demoState demoUser 200
      { name := "First Album", songs := [100, 101], creator := 1 } 100
      rfl rfl rfl rfl (by decide) (by decide)).1 7 101 (by decide),
    (previous_undoes_next demoState demoUser.toggleLoop 200
      { name := "First Album", songs := [100, 101], creator := 1 } 100
      rfl rfl rfl rfl (by decide) (by decide)).2 rfl 101 (by decide)⟩

/-! ## Frame of `Admin::removeArtist` -/

/-- Claim C17.  On a valid catalog state that satisfies I2, `Admin::removeArtist`
called on a catalog artist `A` changes nothing except `A` and `A`'s songs.
The global Playlist and User collections are the same lists (the albums of
`A` stay, and stay live), the global Artist collection is the old one
without `A`, every other artist object is unchanged, and the global Song
list, each global playlist's member list and each catalog user's favorite
songs are their former contents with the songs on `A`'s list filtered out;
among catalog songs those are exactly the songs owned by `A`. -/
theorem removeArtist_frame (st : State) (A : Nat) (hv : st.Valid) (h2 : st.I2)
    (hA : A ∈ st.allArtists) :
    ∃ st' ar, st.artistAt A = some ar ∧ Admin.removeArtist st A = some st' ∧
      (∀ s ∈ st.allSongs, s ∈ ar.songs ↔ st.ownerOf s = some A) ∧
      st'.allPlaylists = st.allPlaylists ∧ st'.allUsers = st.allUsers ∧
      st'.allArtists = st.allArtists.filter (fun a => decide (a ≠ A)) ∧
      (∀ a, a ≠ A → st'.artistAt a = st.artistAt a) ∧
      st'.allSongs = st.allSongs.filter (fun s => decide (st.ownerOf s ≠ some A)) ∧
      (∀ s, s ∉ ar.songs → st'.songAt s = st.songAt s) ∧
      (∀ p ∈ st.allPlaylists, ∃ pl, st.playlistAt p = some pl ∧
        st'.playlistAt p =
          some { pl with songs := pl.songs.filter (fun x => decide (x ∉ ar.songs)) }) ∧
      (∀ p, p ∉ st.allPlaylists → st'.playlistAt p = st.playlistAt p) ∧
      (∀ u ∈ st.allUsers, ∃ usr, st.userAt u = some usr ∧
        st'.userAt u = some { usr with
          favoriteSongs := usr.favoriteSongs.filter (fun x => decide (x ∉ ar.songs)) }) ∧
      (∀ u, u ∉ st.allUsers → st'.userAt u = st.userAt u) := by
  obtain ⟨hsongs, harts, hpl, hus⟩ := hv
  obtain ⟨h2a, h2b⟩ := h2
  obtain ⟨ar, har, hnd, hok⟩ := (artistOk_iff st A).mp (harts A hA)
  have hsoOld : st.songsOf A = some ar.songs := by simp [State.songsOf, har]
  have hF1 : ∀ s ∈ ar.songs, s ∈ st.allSongs ∧ st.ownerOf s = some A := by
    obtain ⟨l, hl, hin⟩ := h2a A hA
    rw [hsoOld] at hl
    cases hl
    exact hin
  have hF2 : ∀ s ∈ st.allSongs, st.ownerOf s = some A → s ∈ ar.songs := by
    intro s hs hsa
    obtain ⟨l, hl, hin⟩ := h2b s hs A hA hsa
    rw [hsoOld] at hl
    cases hl
    exact hin
  refine ⟨_, ar, har, removeArtist_eq st A ar har hnd hok hpl hus, ?_⟩
  dsimp only
  refine ⟨?_, rfl, rfl, ?_, ?_, ?_, ?_, ?_, ?_, ?_, ?_⟩
  · intro s hs
    exact ⟨fun h => (hF1 s h).2, fun h => hF2 s hs h⟩
  · unfold eraseAll
    apply List.filter_congr
    intro a _
    by_cases h : a = A <;> simp [h]
  · intro a hne
    rw [setAt_other _ _ _ _ hne]
    cases har0 : st.artistAt a with
    | none => rfl
    | some ar0 =>
      simp only [Option.map_some', Option.some.injEq]
      have hid : ar0.songs.filter
          (fun x => !(decide (x ∈ ar.songs) && decide (st.ownerOf x = some a))) = ar0.songs := by
        rw [List.filter_eq_self]
        intro x _
        by_cases hxm : x ∈ ar.songs
        · have hxa : st.ownerOf x ≠ some a := by
            rw [(hF1 x hxm).2]
            intro h
            exact hne (Option.some.inj h).symm
          simp [hxa]
        · simp [hxm]
      rw [hid]
  · apply List.filter_congr
    intro s hs
    by_cases h : s ∈ ar.songs
    · simp [h, (hF1 s h).2]
    · have : st.ownerOf s ≠ some A := fun e => h (hF2 s hs e)
      simp [h, this]
  · intro s hs
    simp [hs]
  · intro p hp
    obtain ⟨pl, hplp⟩ := Option.isSome_iff_exists.mp (hpl p hp)
    exact ⟨pl, hplp, by simp only [hp, if_true, hplp, Option.map_some']⟩
  · intro p hp
    simp only [hp, if_false]
  · intro u hu
    obtain ⟨usr, husr⟩ := Option.isSome_iff_exists.mp (hus u hu)
    exact ⟨usr, husr, by simp only [hu, if_true, husr, Option.map_some']⟩
  · intro u hu
    simp only [hu, if_false]

/-- Witness for C17: "Artist One" (address 10, songs 100 and 101) is removed from
the sample catalog; the songs of "Artist Two" and both albums stay. -/
theorem removeArtist_frame_witness :
    ∃ st', Admin.removeArtist demoState 10 = some st' ∧
      st'.allPlaylists = [200, 201] ∧ st'.allUsers = [300] ∧ st'.allArtists = [11] ∧
      st'.artistAt 11 = demoState.artistAt 11 ∧ st'.allSongs = [102, 103] ∧
      (st'.playlistAt 200).map Playlist.songs = some [] ∧
      (st'.playlistAt 201).map Playlist.songs = some [102, 103] ∧
      (st'.userAt 300).map User.favoriteSongs = some [] := by
  obtain ⟨st', ar, har, hrem, -, hP, hU, hA, hother, hS, -, hpl, -, hus, -⟩ :=
    removeArtist_frame demoState 10 (by decide) (by decide) (by decide)
  have har' : ar = { name := "Artist One", songs := [100, 101], albums := [200] } := by
    have h : demoState.artistAt 10 =
        some { name := "Artist One", songs := [100, 101], albums := [200] } := rfl
    rw [h] at har
    exact (Option.some.inj har).symm
  subst har'
  obtain ⟨pl0, hpl0, hpl0'⟩ := hpl 200 (by decide)
  obtain ⟨pl1, hpl1, hpl1'⟩ := hpl 201 (by decide)
  obtain ⟨usr, husr, husr'⟩ := hus 300 (by decide)
  have e0 : pl0 = { name := "First Album", songs := [100, 101], creator := 1 } :=
    (Option.some.inj hpl0).symm
  have e1 : pl1 = { name := "Debut Album", songs := [102, 103], creator := 1 } :=
    (Option.some.inj hpl1).symm
  have e2 : usr =
      { username := "alice", password := "pw", favoriteSongs := [100],
        personalPlaylists := [202] } := (Option.some.inj husr).symm
  subst e0 e1 e2
  refine ⟨st', hrem, hP, hU, ?_, hother 11 (by decide), ?_, ?_, ?_, ?_⟩
  · rw [hA]; decide
  · rw [hS]; decide
  · rw [hpl0']; decide
  · rw [hpl1']; decide
  · rw [husr']; decide

end MusicPlayer
